import Mathlib

/-!
Shallow embedding of the Minesweeper board engine
(`src/services/gameService.ts`) and of the history/replay subsystem
(`src/services/gameHistoryService.ts`), together with proofs about them.

Modelling conventions:
* `number` cell coordinates are `Nat` (all engine claims restrict to
  in-range positions; `createBoardWithMines` keeps the source's bounds
  check, whose `pos.row >= 0` half is vacuous over `Nat`).
* `Date.now()` is modelled by passing the current time as an explicit
  `now : Nat` argument to the functions that read the clock; replay code
  that performs several calls receives a stream `nows : Nat → Nat`.
* `Math.random()` mine placement is modelled by a sample stream
  `sample : Nat → Nat × Nat` (the successive `(row, col)` draws) plus a
  fuel bound for the rejection loop, which returns `none` on fuel
  exhaustion.
* The recursive flood fill `revealAdjacent` is embedded with an explicit
  fuel argument; `revealCell` runs it with fuel `rows * cols`, which the
  termination theorem proves is enough for the result to have stabilised.
-/

namespace Minesweeper

/-- Cell state, mirroring `CellState` of `game.types.ts`. -/
structure CellState where
  revealed : Bool
  isMine : Bool
  isFlagged : Bool
  adjacentMines : Nat
  deriving DecidableEq

/-- Game status, mirroring the `GameStatus` enum of `game.types.ts`. -/
inductive GameStatus where
  | READY
  | PLAYING
  | WON
  | LOST
  deriving DecidableEq

/-- A 0-indexed board position, mirroring `Position` of `game.types.ts`. -/
structure Position where
  row : Nat
  col : Nat
  deriving DecidableEq

/-- The cell grid: a list of rows, each row a list of cells. -/
abbrev Cells := List (List CellState)

/-- Board record, mirroring `GameBoard` of `game.types.ts`.
`minesRemaining` is an `Int` because over-flagging drives it negative. -/
structure GameBoard where
  cells : Cells
  rows : Nat
  cols : Nat
  mines : Nat
  minesRemaining : Int
  status : GameStatus
  startTime : Option Nat
  endTime : Option Nat
  deriving DecidableEq

/-- The all-false cell used to initialize grids; also the out-of-range
fallback of `getCell` (out-of-range access is outside every claim). -/
def blankCell : CellState :=
  { revealed := false, isMine := false, isFlagged := false, adjacentMines := 0 }

/-- Row `r` of a grid (empty list when out of range). -/
def getRow (cs : Cells) (r : Nat) : List CellState :=
  (cs[r]?).getD []

/-- Cell access `cells[r][c]`. -/
def getCell (cs : Cells) (r c : Nat) : CellState :=
  ((getRow cs r)[c]?).getD blankCell

/-- In-place update `cells[r][c] = f (cells[r][c])` (a no-op out of range). -/
def setCell (cs : Cells) (r c : Nat) (f : CellState → CellState) : Cells :=
  cs.set r ((getRow cs r).set c (f (getCell cs r c)))

/-- The inclusive index range `lo..hi` used by the source's neighbor loops
(`for (let i = lo; i <= hi; i++)`). -/
def rangeIncl (lo hi : Nat) : List Nat :=
  (List.range (hi + 1 - lo)).map (lo + ·)

/-- The neighbor positions visited by the source's double loop
`for r in max(0,row-1)..min(rows-1,row+1), c in max(0,col-1)..min(cols-1,col+1)`,
skipping the center. -/
def neighborList (rows cols r c : Nat) : List (Nat × Nat) :=
  (rangeIncl (r - 1) (min (rows - 1) (r + 1))).flatMap fun i =>
    ((rangeIncl (c - 1) (min (cols - 1) (c + 1))).filter
      (fun j => ¬(i = r ∧ j = c))).map fun j => (i, j)

/-- Count of cells satisfying `p` over the whole grid. -/
def countGrid (p : CellState → Bool) (cs : Cells) : Nat :=
  (cs.map fun row => row.countP p).sum

/-- Number of revealed cells. -/
def countRevealed (cs : Cells) : Nat := countGrid (fun c => c.revealed) cs

/-- Number of mine cells. -/
def countMines (cs : Cells) : Nat := countGrid (fun c => c.isMine) cs

/-- Number of hidden (unrevealed) cells. -/
def countHidden (cs : Cells) : Nat := countGrid (fun c => !c.revealed) cs

/-- Total number of cells in the grid. -/
def totalCells (cs : Cells) : Nat := (cs.map List.length).sum

/-- The grid has `rows` rows, each of length `cols`. -/
def Shape (cs : Cells) (rows cols : Nat) : Prop :=
  cs.length = rows ∧ ∀ r < rows, (getRow cs r).length = cols

/-- A board whose grid matches its `rows`/`cols` fields. -/
def Wf (b : GameBoard) : Prop := Shape b.cells b.rows b.cols

instance (cs : Cells) (rows cols : Nat) : Decidable (Shape cs rows cols) :=
  decidable_of_iff (cs.length = rows ∧ ∀ r < rows, (getRow cs r).length = cols) Iff.rfl

instance (b : GameBoard) : Decidable (Wf b) :=
  decidable_of_iff (Shape b.cells b.rows b.cols) Iff.rfl

/-- Win check of `gameService.checkWinCondition`: the game is won when the
revealed-cell count equals total cells minus `totalMines` (the subtraction
is on JS numbers, hence `Int`). -/
def checkWinCondition (cells : Cells) (totalMines : Nat) : Bool :=
  (countRevealed cells : Int) = (totalCells cells : Int) - (totalMines : Int)

/-- Mark one cell revealed. -/
def setRevealed (cs : Cells) (r c : Nat) : Cells :=
  setCell cs r c fun cell => { cell with revealed := true }

/-- Fuelled embedding of the recursive closure `revealAdjacent` inside
`gameService.revealCell`: visit each neighbor; if it is neither revealed
nor flagged, reveal it, and recurse when its `adjacentMines` is zero. -/
def revealAdjacentF (rows cols : Nat) : Nat → Cells → Nat → Nat → Cells
  | 0, cs, _, _ => cs
  | fuel + 1, cs, r, c =>
    (neighborList rows cols r c).foldl
      (fun acc q =>
        if ¬(getCell acc q.1 q.2).revealed ∧ ¬(getCell acc q.1 q.2).isFlagged then
          let acc' := setRevealed acc q.1 q.2
          if (getCell acc' q.1 q.2).adjacentMines = 0 then
            revealAdjacentF rows cols fuel acc' q.1 q.2
          else acc'
        else acc)
      cs

/-- One step of the `revealAdjacentF` fold, named for the proofs. -/
def revealStep (rows cols fuel : Nat) (acc : Cells) (q : Nat × Nat) : Cells :=
  if ¬(getCell acc q.1 q.2).revealed ∧ ¬(getCell acc q.1 q.2).isFlagged then
    if (getCell (setRevealed acc q.1 q.2) q.1 q.2).adjacentMines = 0 then
      revealAdjacentF rows cols fuel (setRevealed acc q.1 q.2) q.1 q.2
    else setRevealed acc q.1 q.2
  else acc

theorem revealAdjacentF_succ (rows cols fuel : Nat) (cs : Cells) (r c : Nat) :
    revealAdjacentF rows cols (fuel + 1) cs r c =
      (neighborList rows cols r c).foldl (revealStep rows cols fuel) cs := rfl

/-- `gameService.revealCell` with an explicit cascade fuel. -/
def revealCellFuel (now fuel : Nat) (board : GameBoard) (pos : Position) : GameBoard :=
  if (getCell board.cells pos.row pos.col).revealed ∨
      (getCell board.cells pos.row pos.col).isFlagged then
    board
  else
    let newCells := setRevealed board.cells pos.row pos.col
    if (getCell newCells pos.row pos.col).isMine then
      { board with cells := newCells, status := GameStatus.LOST, endTime := some now }
    else
      let cascaded :=
        if (getCell newCells pos.row pos.col).adjacentMines = 0 then
          revealAdjacentF board.rows board.cols fuel newCells pos.row pos.col
        else newCells
      let isGameWon := checkWinCondition cascaded board.mines
      { board with
        cells := cascaded
        status := if isGameWon then GameStatus.WON else board.status
        endTime := if isGameWon then some now else board.endTime }

/-- `gameService.revealCell`; fuel `rows * cols` suffices (termination
theorem below). -/
def revealCell (now : Nat) (board : GameBoard) (pos : Position) : GameBoard :=
  revealCellFuel now (board.rows * board.cols) board pos

/-- The cell grid `revealCellFuel` ends up with on its non-mine path: the
clicked cell revealed, plus the flood fill when its `adjacentMines` is
zero (a name for that subterm, used to state the branch lemmas). -/
def revealCascade (fuel : Nat) (board : GameBoard) (pos : Position) : Cells :=
  if (getCell (setRevealed board.cells pos.row pos.col) pos.row pos.col).adjacentMines = 0
  then revealAdjacentF board.rows board.cols fuel
    (setRevealed board.cells pos.row pos.col) pos.row pos.col
  else setRevealed board.cells pos.row pos.col

/-- `gameService.toggleFlag`. -/
def toggleFlag (board : GameBoard) (pos : Position) : GameBoard :=
  if (getCell board.cells pos.row pos.col).revealed then board
  else
    let newCells := setCell board.cells pos.row pos.col
      fun c => { c with isFlagged := !c.isFlagged }
    let newMinesRemaining :=
      if (getCell newCells pos.row pos.col).isFlagged then board.minesRemaining - 1
      else board.minesRemaining + 1
    { board with cells := newCells, minesRemaining := newMinesRemaining }

/-- `gameService.startGame`. -/
def startGame (now : Nat) (board : GameBoard) : GameBoard :=
  if board.status = GameStatus.READY then
    { board with status := GameStatus.PLAYING, startTime := some now }
  else board

/-- `gameService.revealAllMines`: reveal every mine inside the
`rows × cols` area (the source's in-place double loop, written as a grid
rebuild, which is pointwise identical on well-formed boards). -/
def revealAllMines (board : GameBoard) : GameBoard :=
  { board with cells :=
      (List.range board.rows).map fun r =>
        (List.range board.cols).map fun c =>
          let cell := getCell board.cells r c
          if cell.isMine then { cell with revealed := true } else cell }

/-- The flag-counting / neighbor-collecting loop of `gameService.chordCell`:
flagged neighbors are counted, unflagged unrevealed neighbors are queued. -/
def chordScan (cells : Cells) (ns : List (Nat × Nat)) : Nat × List Position :=
  ns.foldl
    (fun acc q =>
      if (getCell cells q.1 q.2).isFlagged then (acc.1 + 1, acc.2)
      else if ¬(getCell cells q.1 q.2).revealed then (acc.1, acc.2 ++ [⟨q.1, q.2⟩])
      else acc)
    (0, [])

/-- The reveal loop of `gameService.chordCell`: apply `revealCell` to each
queued position, returning early as soon as a reveal loses the game. -/
def revealSweep (now : Nat) : GameBoard → List Position → GameBoard
  | b, [] => b
  | b, p :: ps =>
    let b' := revealCell now b p
    if b'.status = GameStatus.LOST then b' else revealSweep now b' ps

/-- `gameService.chordCell`. -/
def chordCell (now : Nat) (board : GameBoard) (pos : Position) : GameBoard :=
  let cell := getCell board.cells pos.row pos.col
  if ¬cell.revealed ∨ cell.adjacentMines = 0 then board
  else
    let scan := chordScan board.cells (neighborList board.rows board.cols pos.row pos.col)
    if scan.1 = cell.adjacentMines then revealSweep now board scan.2
    else board

/-- The all-hidden, mine-free starting grid of both board constructors. -/
def blankGrid (rows cols : Nat) : Cells :=
  List.replicate rows (List.replicate cols blankCell)

/-- Mark one cell as a mine. -/
def setMine (cs : Cells) (r c : Nat) : Cells :=
  setCell cs r c fun cell => { cell with isMine := true }

/-- Mine placement of `createBoardWithMines`: mark each listed position,
silently ignoring out-of-bounds positions. -/
def placeMines (rows cols : Nat) (cs : Cells) (minePositions : List Position) : Cells :=
  minePositions.foldl
    (fun acc p => if p.row < rows ∧ p.col < cols then setMine acc p.row p.col else acc)
    cs

/-- Number of mines among the at-most-8 neighbors of `(r, c)`. -/
def neighborMineCount (rows cols : Nat) (cs : Cells) (r c : Nat) : Nat :=
  (neighborList rows cols r c).countP fun q => (getCell cs q.1 q.2).isMine

/-- Adjacency pass shared by both board constructors: every non-mine cell
gets `adjacentMines` set to its neighbor mine count (the source's in-place
double loop only reads `isMine`, so the rebuild is pointwise identical). -/
def computeAdjacency (rows cols : Nat) (cs : Cells) : Cells :=
  (List.range rows).map fun r =>
    (List.range cols).map fun c =>
      let cell := getCell cs r c
      if cell.isMine then cell
      else { cell with adjacentMines := neighborMineCount rows cols cs r c }

/-- `gameService.createBoardWithMines`. -/
def createBoardWithMines (rows cols mines : Nat) (minePositions : List Position) :
    GameBoard :=
  { cells := computeAdjacency rows cols (placeMines rows cols (blankGrid rows cols) minePositions)
    rows := rows
    cols := cols
    mines := mines
    minesRemaining := (mines : Int)
    status := GameStatus.READY
    startTime := none
    endTime := none }

/-- The rejection-sampling mine-placement loop of `createBoard`: draw the
next sample, skip it if that cell is already a mine, stop once `mines`
mines are placed; `none` on fuel exhaustion. -/
def placeMinesLoop (mines : Nat) (sample : Nat → Nat × Nat) :
    Nat → Nat → Nat → Cells → Option Cells
  | fuel, k, placed, cs =>
    if mines ≤ placed then some cs
    else
      match fuel with
      | 0 => none
      | fuel' + 1 =>
        let q := sample k
        if (getCell cs q.1 q.2).isMine then
          placeMinesLoop mines sample fuel' (k + 1) placed cs
        else
          placeMinesLoop mines sample fuel' (k + 1) (placed + 1) (setMine cs q.1 q.2)

/-- `gameService.createBoard`, with the random draws given by `sample`. -/
def createBoard (rows cols mines : Nat) (sample : Nat → Nat × Nat) (fuel : Nat) :
    Option GameBoard :=
  (placeMinesLoop mines sample fuel 0 0 (blankGrid rows cols)).map fun cs =>
    { cells := computeAdjacency rows cols cs
      rows := rows
      cols := cols
      mines := mines
      minesRemaining := (mines : Int)
      status := GameStatus.READY
      startTime := none
      endTime := none }

/-- Action tags of `gameHistoryService.GameAction`. -/
inductive ActionType where
  | REVEAL
  | FLAG
  | CHORD
  | START
  | RESTART
  deriving DecidableEq

/-- `gameHistoryService.GameAction` (the `timestamp` field is carried but
never read by the replay code). -/
structure GameAction where
  type : ActionType
  position : Option Position
  timestamp : Nat
  boardState : Option GameBoard
  deriving DecidableEq

/-- `gameHistoryService.GameHistoryEntry` (the string `id` field, unread by
the replay code, is omitted). -/
structure GameHistoryEntry where
  gameBoard : GameBoard
  actions : List GameAction
  startTime : Nat
  endTime : Option Nat
  isComplete : Bool
  minePositions : List Position
  deriving DecidableEq

/-- `gameHistoryService.extractMinePositions`: the positions of all mines,
row-major. -/
def extractMinePositions (board : GameBoard) : List Position :=
  (List.range board.rows).flatMap fun r =>
    ((List.range board.cols).filter fun c => (getCell board.cells r c).isMine).map
      fun c => (⟨r, c⟩ : Position)

/-- One step of the reconstruction loop in
`gameHistoryService.getGameSnapshotAtIndex`: apply the recorded action
through the engine; a losing REVEAL is followed by `revealAllMines`, and
RESTART re-seeds with the entry's stored `minePositions`. -/
def replayAct (now : Nat) (mp : List Position) (b : GameBoard) (a : GameAction) :
    GameBoard :=
  match a.type with
  | ActionType.REVEAL =>
    match a.position with
    | some p =>
      let b' := revealCell now b p
      if b'.status = GameStatus.LOST then revealAllMines b' else b'
    | none => b
  | ActionType.FLAG =>
    match a.position with
    | some p => toggleFlag b p
    | none => b
  | ActionType.CHORD =>
    match a.position with
    | some p => chordCell now b p
    | none => b
  | ActionType.START => startGame now b
  | ActionType.RESTART => createBoardWithMines b.rows b.cols b.mines mp

/-- The reconstruction loop: apply the listed actions in order, the
`k`-th call reading the clock value `nows k`. -/
def replayActions (nows : Nat → Nat) (mp : List Position) :
    Nat → GameBoard → List GameAction → GameBoard
  | _, b, [] => b
  | k, b, a :: rest => replayActions nows mp (k + 1) (replayAct (nows k) mp b a) rest

/-- `gameHistoryService.getGameSnapshotAtIndex`. A negative index returns
the initial board with no action (the source's early return); an index at
or past the end is clamped to the last action; a missing action (empty
list) lands in the source's catch-all, returning the initial board; a
stored `boardState` is returned directly, otherwise the board is
reconstructed by replaying actions `0..index` from the initial board. -/
def getGameSnapshotAtIndex (nows : Nat → Nat) (game : GameHistoryEntry)
    (actionIndex : Int) : GameBoard × Option GameAction :=
  if actionIndex < 0 then (game.gameBoard, none)
  else
    let idx : Nat :=
      if (game.actions.length : Int) ≤ actionIndex then game.actions.length - 1
      else actionIndex.toNat
    match game.actions[idx]? with
    | none => (game.gameBoard, none)
    | some action =>
      match action.boardState with
      | some bs => (bs, some action)
      | none =>
        (replayActions nows game.minePositions 0 game.gameBoard
          (game.actions.take (idx + 1)), some action)

/-- The non-negative-index core of `getGameSnapshotAtIndex` (a name for
the source's lookup-then-replay body, used to state index lemmas). -/
def snapAt (nows : Nat → Nat) (game : GameHistoryEntry) (idx : Nat) :
    GameBoard × Option GameAction :=
  match game.actions[idx]? with
  | none => (game.gameBoard, none)
  | some action =>
    match action.boardState with
    | some bs => (bs, some action)
    | none =>
      (replayActions nows game.minePositions 0 game.gameBoard
        (game.actions.take (idx + 1)), some action)

/-- The user-level moves whose recording `GameContext.tsx` performs via
`recordGameAction`; RESTART is recorded with the entry's own fresh board. -/
inductive Move where
  | reveal (p : Position)
  | flag (p : Position)
  | chord (p : Position)
  | start
  | restart
  deriving DecidableEq

/-- The `GameAction.type` under which a move is recorded. -/
def moveType : Move → ActionType
  | Move.reveal _ => ActionType.REVEAL
  | Move.flag _ => ActionType.FLAG
  | Move.chord _ => ActionType.CHORD
  | Move.start => ActionType.START
  | Move.restart => ActionType.RESTART

/-- The `GameAction.position` under which a move is recorded. -/
def movePos : Move → Option Position
  | Move.reveal p => some p
  | Move.flag p => some p
  | Move.chord p => some p
  | Move.start => none
  | Move.restart => none

/-- The board snapshot `recordGameAction` stores for one move: the raw
engine output (`GameContext.tsx` records `gameService.revealCell(...)`
without the reducer's `revealAllMines` pass); a RESTART records the
entry's own initial board `b0`. -/
def applyMove (now : Nat) (b0 b : GameBoard) : Move → GameBoard
  | Move.reveal p => revealCell now b p
  | Move.flag p => toggleFlag b p
  | Move.chord p => chordCell now b p
  | Move.start => startGame now b
  | Move.restart => b0

/-- The successive recorded board snapshots of a played game (one per
move), the `k`-th move reading clock value `nows k`. -/
def liveBoards (nows : Nat → Nat) (b0 : GameBoard) :
    Nat → GameBoard → List Move → List GameBoard
  | _, _, [] => []
  | k, b, m :: ms =>
    let b' := applyMove (nows k) b0 b m
    b' :: liveBoards nows b0 (k + 1) b' ms

/-- The history entry a played game leaves behind: initial board `b0`,
`minePositions` extracted from it, and one recorded action per move —
with per-action board snapshots when `withSnaps` is true (the current
format) and without them for legacy entries. -/
def mkEntry (withSnaps : Bool) (nows : Nat → Nat) (b0 : GameBoard)
    (moves : List Move) : GameHistoryEntry :=
  { gameBoard := b0
    actions := (moves.zip (liveBoards nows b0 0 b0 moves)).map fun mb =>
      { type := moveType mb.1
        position := movePos mb.1
        timestamp := 0
        boardState := if withSnaps then some mb.2 else none }
    startTime := 0
    endTime := none
    isComplete := true
    minePositions := extractMinePositions b0 }

/-- Rank of a status along the lifecycle order
`READY → PLAYING → {WON, LOST}`. -/
def statusRank : GameStatus → Nat
  | GameStatus.READY => 0
  | GameStatus.PLAYING => 1
  | GameStatus.WON => 2
  | GameStatus.LOST => 2

/-- A board in a terminal (game-over) status. -/
def Terminal (b : GameBoard) : Prop :=
  b.status = GameStatus.WON ∨ b.status = GameStatus.LOST

instance (b : GameBoard) : Decidable (Terminal b) :=
  decidable_of_iff (b.status = GameStatus.WON ∨ b.status = GameStatus.LOST) Iff.rfl

/-- Agreement of two boards on every field except the timestamps
(`Date.now()` values differ between a live game and its replay, and no
engine decision reads them). -/
def BoardEquiv (b b' : GameBoard) : Prop :=
  b.cells = b'.cells ∧ b.rows = b'.rows ∧ b.cols = b'.cols ∧ b.mines = b'.mines ∧
    b.minesRemaining = b'.minesRemaining ∧ b.status = b'.status

instance (b b' : GameBoard) : Decidable (BoardEquiv b b') :=
  decidable_of_iff (b.cells = b'.cells ∧ b.rows = b'.rows ∧ b.cols = b'.cols ∧
    b.mines = b'.mines ∧ b.minesRemaining = b'.minesRemaining ∧ b.status = b'.status) Iff.rfl

/-- The positions of revealed mine cells, row-major. -/
def revealedMines (b : GameBoard) : List Position :=
  (List.range b.rows).flatMap fun r =>
    ((List.range b.cols).filter fun c =>
      (getCell b.cells r c).isMine && (getCell b.cells r c).revealed).map
      fun c => (⟨r, c⟩ : Position)

/-- Every non-mine cell of the board is revealed. -/
def allSafeRevealed (b : GameBoard) : Prop :=
  ∀ r < b.rows, ∀ c < b.cols,
    (getCell b.cells r c).isMine = false → (getCell b.cells r c).revealed = true

instance (b : GameBoard) : Decidable (allSafeRevealed b) :=
  decidable_of_iff (∀ r < b.rows, ∀ c < b.cols,
    (getCell b.cells r c).isMine = false → (getCell b.cells r c).revealed = true) Iff.rfl

/-- A freshly created board, as produced by the board constructors: well
formed, non-degenerate, all cells hidden and unflagged, adjacency counts
correct (and zero on mines), status `READY`, `minesRemaining = mines`,
timestamps unset. -/
def Fresh (b : GameBoard) : Prop :=
  Wf b ∧ 1 ≤ b.rows ∧ 1 ≤ b.cols ∧ b.status = GameStatus.READY ∧
    b.startTime = none ∧ b.endTime = none ∧ b.minesRemaining = (b.mines : Int) ∧
    ∀ r < b.rows, ∀ c < b.cols,
      (getCell b.cells r c).revealed = false ∧ (getCell b.cells r c).isFlagged = false ∧
        (getCell b.cells r c).adjacentMines =
          (if (getCell b.cells r c).isMine then 0
           else neighborMineCount b.rows b.cols b.cells r c)

instance (b : GameBoard) : Decidable (Fresh b) :=
  decidable_of_iff (Wf b ∧ 1 ≤ b.rows ∧ 1 ≤ b.cols ∧ b.status = GameStatus.READY ∧
    b.startTime = none ∧ b.endTime = none ∧ b.minesRemaining = (b.mines : Int) ∧
    ∀ r < b.rows, ∀ c < b.cols,
      (getCell b.cells r c).revealed = false ∧ (getCell b.cells r c).isFlagged = false ∧
        (getCell b.cells r c).adjacentMines =
          (if (getCell b.cells r c).isMine then 0
           else neighborMineCount b.rows b.cols b.cells r c)) Iff.rfl

/-- Whether the (optionally present) move is a REVEAL. -/
def lastIsReveal : Option Move → Bool
  | some (Move.reveal _) => true
  | _ => false

/-- The recorded game ended with a REVEAL that lost (the one case where the
reconstruction path additionally runs `revealAllMines`). -/
def LostByLastReveal (moves : List Move) (bn : GameBoard) : Prop :=
  lastIsReveal moves.getLast? = true ∧ bn.status = GameStatus.LOST

instance (moves : List Move) (bn : GameBoard) : Decidable (LostByLastReveal moves bn) :=
  decidable_of_iff (lastIsReveal moves.getLast? = true ∧ bn.status = GameStatus.LOST) Iff.rfl

/-- Demo board: one row of three cells with mines at both ends. -/
def mineRowBoard : GameBoard := createBoardWithMines 1 3 2 [⟨0, 0⟩, ⟨0, 2⟩]

/-- Demo board: 2 × 2 with a single mine in the corner. -/
def cornerMineBoard : GameBoard := createBoardWithMines 2 2 1 [⟨0, 0⟩]

/-- Demo board: a won 1 × 3 game (both safe cells revealed) whose mine at
`(0,2)` is still hidden and unflagged. -/
def wonEdgeBoard : GameBoard :=
  { cells := [[{ revealed := true, isMine := false, isFlagged := false, adjacentMines := 0 },
               { revealed := true, isMine := false, isFlagged := false, adjacentMines := 1 },
               { revealed := false, isMine := true, isFlagged := false, adjacentMines := 0 }]]
    rows := 1
    cols := 3
    mines := 1
    minesRemaining := 1
    status := GameStatus.WON
    startTime := some 0
    endTime := some 1 }

/-- Demo board: a 1 × 3 board whose mine at `(0,0)` is already revealed,
with both safe cells hidden. -/
def revealedMineBoard : GameBoard :=
  { cells := [[{ revealed := true, isMine := true, isFlagged := false, adjacentMines := 0 },
               { revealed := false, isMine := false, isFlagged := false, adjacentMines := 1 },
               { revealed := false, isMine := false, isFlagged := false, adjacentMines := 0 }]]
    rows := 1
    cols := 3
    mines := 1
    minesRemaining := 1
    status := GameStatus.PLAYING
    startTime := some 0
    endTime := none }

/-- Demo board: a lost 1 × 1 mine-free board with its cell still hidden. -/
def lostBlankBoard : GameBoard :=
  { cells := [[blankCell]]
    rows := 1
    cols := 1
    mines := 0
    minesRemaining := 0
    status := GameStatus.LOST
    startTime := some 0
    endTime := some 1 }

/-- Demo board for chording: on `cornerMineBoard`, reveal `(1,1)` and flag
the mine at `(0,0)`. -/
def chordReadyBoard : GameBoard :=
  toggleFlag (revealCell 0 cornerMineBoard ⟨1, 1⟩) ⟨0, 0⟩

/-- Demo history entry: one recorded FLAG action with a stored snapshot. -/
def flagEntry : GameHistoryEntry :=
  mkEntry true (fun _ => 0) cornerMineBoard [Move.flag ⟨0, 1⟩]

/-- The board `createBoard 2 2 1` produces when the random sampler daws
`(0,0)` first (used as a concrete witness of the rejection loop). -/
def sampledBoard : GameBoard :=
  { cells := computeAdjacency 2 2 (setMine (blankGrid 2 2) 0 0)
    rows := 2
    cols := 2
    mines := 1
    minesRemaining := 1
    status := GameStatus.READY
    startTime := none
    endTime := none }

/-! ### List helpers -/

theorem countP_set_aligned {α : Type} (p : α → Bool) :
    ∀ (l : List α) (i : Nat) (v w : α), l[i]? = some w →
      (l.set i v).countP p + (if p w then 1 else 0) =
        l.countP p + (if p v then 1 else 0) := by
  intro l
  induction l with
  | nil => intro i v w h; simp at h
  | cons a t ih =>
    intro i v w h
    cases i with
    | zero =>
      simp only [List.getElem?_cons_zero, Option.some.injEq] at h
      subst h
      simp only [List.set_cons_zero, List.countP_cons]
      omega
    | succ n =>
      simp only [List.getElem?_cons_succ] at h
      have := ih n v w h
      simp only [List.set_cons_succ, List.countP_cons]
      omega

theorem sum_map_set_aligned {α : Type} (f : α → Nat) :
    ∀ (l : List α) (i : Nat) (v w : α), l[i]? = some w →
      ((l.set i v).map f).sum + f w = (l.map f).sum + f v := by
  intro l
  induction l with
  | nil => intro i v w h; simp at h
  | cons a t ih =>
    intro i v w h
    cases i with
    | zero =>
      simp only [List.getElem?_cons_zero, Option.some.injEq] at h
      subst h
      simp only [List.set_cons_zero, List.map_cons, List.sum_cons]
      omega
    | succ n =>
      simp only [List.getElem?_cons_succ] at h
      have := ih n v w h
      simp only [List.set_cons_succ, List.map_cons, List.sum_cons]
      omega

theorem countP_eq_range {α : Type} (p : α → Bool) (d : α) :
    ∀ l : List α, l.countP p =
      ((List.range l.length).filter fun i => p ((l[i]?).getD d)).length := by
  intro l
  induction l with
  | nil => simp
  | cons a t ih =>
    rw [List.length_cons, List.range_succ_eq_map, List.filter_cons]
    have hcomp : ((List.range t.length).map (· + 1)).filter
        (fun i => p (((a :: t)[i]?).getD d)) =
        ((List.range t.length).filter fun i => p ((t[i]?).getD d)).map (· + 1) := by
      rw [List.filter_map]
      apply congrArg
      apply List.filter_congr
      intro i _
      simp
    cases hpa : p a <;>
      simp [List.countP_cons, hpa, hcomp, ih]

theorem sum_map_eq_range {α : Type} (g : α → Nat) (d : α) :
    ∀ l : List α, (l.map g).sum =
      ((List.range l.length).map fun i => g ((l[i]?).getD d)).sum := by
  intro l
  induction l with
  | nil => simp
  | cons a t ih =>
    rw [List.length_cons, List.range_succ_eq_map]
    have hcomp : ((List.range t.length).map (· + 1)).map
        (fun i => g (((a :: t)[i]?).getD d)) =
        (List.range t.length).map fun i => g ((t[i]?).getD d) := by
      rw [List.map_map]
      apply List.map_congr_left
      intro i _
      simp
    simp [hcomp, ih]

theorem set_getElem?_self {α : Type} {l : List α} {i : Nat} {v : α}
    (h : l[i]? = some v) : l.set i v = l := by
  have hlen : i < l.length := by
    rw [List.getElem?_eq_some] at h
    exact h.1
  apply List.ext_getElem?
  intro n
  by_cases hn : n = i
  · subst hn
    rw [List.getElem?_set_self hlen, h]
  · exact List.getElem?_set_ne fun he => hn he.symm

/-! ### Grid access lemmas -/

theorem getRow_eq_of_lt {cs : Cells} {r : Nat} (h : r < cs.length) :
    cs[r]? = some (getRow cs r) := by
  unfold getRow
  rw [List.getElem?_eq_getElem h]
  rfl

theorem getCell_eq_of_lt {cs : Cells} {r c : Nat} (hc : c < (getRow cs r).length) :
    (getRow cs r)[c]? = some (getCell cs r c) := by
  unfold getCell
  rw [List.getElem?_eq_getElem hc]
  rfl

theorem getRow_setCell (cs : Cells) (r c : Nat) (f : CellState → CellState) (i : Nat) :
    getRow (setCell cs r c f) i =
      if i = r then (getRow cs r).set c (f (getCell cs r c)) else getRow cs i := by
  simp only [setCell]
  by_cases hir : i = r
  · subst hir
    rw [if_pos rfl]
    by_cases hr : i < cs.length
    · unfold getRow
      rw [List.getElem?_set_self hr]
      rfl
    · unfold getRow
      rw [List.set_eq_of_length_le (by omega), List.getElem?_eq_none (by omega : cs.length ≤ i)]
      rfl
  · rw [if_neg hir]
    unfold getRow
    rw [List.getElem?_set_ne fun he => hir he.symm]

theorem getCell_setCell (cs : Cells) (r c : Nat) (f : CellState → CellState) (i j : Nat) :
    getCell (setCell cs r c f) i j =
      if i = r ∧ j = c ∧ r < cs.length ∧ c < (getRow cs r).length
      then f (getCell cs r c) else getCell cs i j := by
  show (((getRow (setCell cs r c f) i))[j]?).getD blankCell = _
  rw [getRow_setCell]
  by_cases hir : i = r
  · subst hir
    rw [if_pos rfl]
    by_cases hjc : j = c
    · subst hjc
      by_cases hcl : j < (getRow cs i).length
      · by_cases hrl : i < cs.length
        · rw [List.getElem?_set_self hcl, if_pos ⟨rfl, rfl, hrl, hcl⟩]
          rfl
        · have hnone : cs[i]? = none := List.getElem?_eq_none (by omega)
          have hrow : getRow cs i = [] := by unfold getRow; rw [hnone]; rfl
          rw [hrow] at hcl
          simp at hcl
      · rw [show (getRow cs i).set j (f (getCell cs i j)) = getRow cs i from
            List.set_eq_of_length_le (by omega),
          if_neg (fun hh => hcl hh.2.2.2)]
        rfl
    · rw [List.getElem?_set_ne fun he => hjc he.symm,
        if_neg (fun hh => hjc hh.2.1)]
      rfl
  · rw [if_neg hir, if_neg (fun hh => hir hh.1)]
    rfl

theorem getCell_setCell_same {cs : Cells} {r c : Nat} (f : CellState → CellState)
    (hr : r < cs.length) (hc : c < (getRow cs r).length) :
    getCell (setCell cs r c f) r c = f (getCell cs r c) := by
  rw [getCell_setCell]
  simp [hr, hc]

theorem getCell_setCell_of_ne {cs : Cells} {r c : Nat} (f : CellState → CellState)
    {i j : Nat} (h : ¬(i = r ∧ j = c)) :
    getCell (setCell cs r c f) i j = getCell cs i j := by
  rw [getCell_setCell]
  simp only [ite_eq_right_iff]
  intro hh
  exact absurd ⟨hh.1, hh.2.1⟩ h

theorem length_setCell (cs : Cells) (r c : Nat) (f : CellState → CellState) :
    (setCell cs r c f).length = cs.length := by
  unfold setCell
  exact List.length_set _ _ _

theorem shape_setCell {cs : Cells} {rows cols : Nat} (h : Shape cs rows cols)
    (r c : Nat) (f : CellState → CellState) : Shape (setCell cs r c f) rows cols := by
  refine ⟨by rw [length_setCell]; exact h.1, ?_⟩
  intro i hi
  rw [getRow_setCell]
  by_cases hir : i = r
  · subst hir
    rw [if_pos rfl, List.length_set]
    exact h.2 i hi
  · rw [if_neg hir]
    exact h.2 i hi

theorem setCell_out_of_range {cs : Cells} {r c : Nat} (f : CellState → CellState)
    (h : ¬(r < cs.length ∧ c < (getRow cs r).length)) : setCell cs r c f = cs := by
  by_cases hr : r < cs.length
  · have hc : ¬ c < (getRow cs r).length := fun hc => h ⟨hr, hc⟩
    unfold setCell
    rw [show (getRow cs r).set c (f (getCell cs r c)) = getRow cs r from
      List.set_eq_of_length_le (by omega)]
    exact set_getElem?_self (getRow_eq_of_lt hr)
  · unfold setCell
    exact List.set_eq_of_length_le (by omega)

/-! ### Counting lemmas -/

theorem countGrid_setCell (p : CellState → Bool) {cs : Cells} {r c : Nat}
    (f : CellState → CellState) (hr : r < cs.length) (hc : c < (getRow cs r).length) :
    countGrid p (setCell cs r c f) + (if p (getCell cs r c) then 1 else 0)
      = countGrid p cs + (if p (f (getCell cs r c)) then 1 else 0) := by
  have h1 : cs[r]? = some (getRow cs r) := getRow_eq_of_lt hr
  have h2 : (getRow cs r)[c]? = some (getCell cs r c) := getCell_eq_of_lt hc
  have hs := sum_map_set_aligned (fun row => row.countP p) cs r
    ((getRow cs r).set c (f (getCell cs r c))) (getRow cs r) h1
  have hcp := countP_set_aligned p (getRow cs r) c (f (getCell cs r c)) (getCell cs r c) h2
  show countGrid p (cs.set r ((getRow cs r).set c (f (getCell cs r c)))) + _ = _
  unfold countGrid
  simp only at hs hcp ⊢
  omega

theorem countGrid_setCell_invariant (p : CellState → Bool) {cs : Cells} {r c : Nat}
    (f : CellState → CellState) (hf : ∀ x, p (f x) = p x) :
    countGrid p (setCell cs r c f) = countGrid p cs := by
  by_cases h : r < cs.length ∧ c < (getRow cs r).length
  · have := countGrid_setCell p f h.1 h.2
    rw [hf] at this
    omega
  · rw [setCell_out_of_range f h]

theorem countHidden_setRevealed_add_one {cs : Cells} {r c : Nat} (hr : r < cs.length)
    (hc : c < (getRow cs r).length) (hun : (getCell cs r c).revealed = false) :
    countHidden (setRevealed cs r c) + 1 = countHidden cs := by
  have := countGrid_setCell (fun x => !x.revealed)
    (fun cell => { cell with revealed := true }) hr hc
  simp only [hun, Bool.not_false, if_pos, Bool.not_true, if_neg] at this
  show countHidden (setCell cs r c _) + 1 = countHidden cs
  unfold countHidden
  simp at this
  omega

theorem countHidden_setRevealed_le (cs : Cells) (r c : Nat) :
    countHidden (setRevealed cs r c) ≤ countHidden cs := by
  by_cases h : r < cs.length ∧ c < (getRow cs r).length
  · have h0 := countGrid_setCell (fun x => !x.revealed)
      (fun cell => { cell with revealed := true }) h.1 h.2
    have h1 : ((fun (x : CellState) => !x.revealed)
        ((fun cell => { cell with revealed := true }) (getCell cs r c))) = false := rfl
    rw [h1] at h0
    rw [show (if false = true then 1 else 0) = 0 from rfl] at h0
    show countHidden (setCell cs r c _) ≤ countHidden cs
    unfold countHidden
    omega
  · show countHidden (setCell cs r c _) ≤ countHidden cs
    rw [setCell_out_of_range _ h]

theorem countRevealed_setRevealed_ge (cs : Cells) (r c : Nat) :
    countRevealed cs ≤ countRevealed (setRevealed cs r c) := by
  by_cases h : r < cs.length ∧ c < (getRow cs r).length
  · have h0 := countGrid_setCell (fun x => x.revealed)
      (fun cell => { cell with revealed := true }) h.1 h.2
    show countRevealed cs ≤ countRevealed (setCell cs r c _)
    unfold countRevealed
    by_cases hrev : (getCell cs r c).revealed = true
    · simp only [hrev] at h0 ⊢
      omega
    · simp only [Bool.not_eq_true] at hrev
      simp only [hrev] at h0 ⊢
      rw [show (if false = true then 1 else 0) = 0 from rfl,
        show (if True then 1 else 0) = 1 from rfl] at h0
      omega
  · show countRevealed cs ≤ countRevealed (setCell cs r c _)
    rw [setCell_out_of_range _ h]

theorem countMines_setRevealed (cs : Cells) (r c : Nat) :
    countMines (setRevealed cs r c) = countMines cs :=
  countGrid_setCell_invariant _ _ fun _ => rfl

/-! ### Range formulas for grid counts -/

theorem countGrid_eq_range (p : CellState → Bool) {cs : Cells} {rows cols : Nat}
    (h : Shape cs rows cols) :
    countGrid p cs = ((List.range rows).map fun r =>
      ((List.range cols).filter fun c => p (getCell cs r c)).length).sum := by
  unfold countGrid
  rw [sum_map_eq_range (fun row => row.countP p) [] cs, h.1]
  apply congrArg List.sum
  apply List.map_congr_left
  intro r hr
  rw [List.mem_range] at hr
  show (getRow cs r).countP p = _
  rw [countP_eq_range p blankCell (getRow cs r), h.2 r hr]
  rfl

theorem totalCells_eq_countGrid (cs : Cells) :
    totalCells cs = countGrid (fun _ => true) cs := by
  unfold totalCells countGrid
  apply congrArg List.sum
  apply List.map_congr_left
  intro row _
  rw [List.countP_true]

theorem totalCells_of_shape {cs : Cells} {rows cols : Nat} (h : Shape cs rows cols) :
    totalCells cs = rows * cols := by
  rw [totalCells_eq_countGrid, countGrid_eq_range _ h]
  simp [List.filter_true, Nat.mul_comm]

theorem countGrid_eq_zero_iff (p : CellState → Bool) {cs : Cells} {rows cols : Nat}
    (h : Shape cs rows cols) :
    countGrid p cs = 0 ↔ ∀ r < rows, ∀ c < cols, p (getCell cs r c) = false := by
  rw [countGrid_eq_range p h, List.sum_eq_zero_iff]
  constructor
  · intro H r hr c hc
    have h2 := H _ (List.mem_map.mpr ⟨r, List.mem_range.mpr hr, rfl⟩)
    rw [List.length_eq_zero, List.filter_eq_nil_iff] at h2
    have := h2 c (List.mem_range.mpr hc)
    simpa using this
  · intro H x hx
    obtain ⟨r, hr, rfl⟩ := List.mem_map.mp hx
    rw [List.length_eq_zero, List.filter_eq_nil_iff]
    intro c hc
    simp [H r (List.mem_range.mp hr) c (List.mem_range.mp hc)]

theorem countGrid_le_totalCells (p : CellState → Bool) (cs : Cells) :
    countGrid p cs ≤ totalCells cs :=
  List.sum_le_sum fun row _ => List.countP_le_length p

theorem countGrid_split (p q : CellState → Bool) (cs : Cells) :
    countGrid p cs =
      countGrid (fun x => p x && q x) cs + countGrid (fun x => p x && !q x) cs := by
  unfold countGrid
  induction cs with
  | nil => rfl
  | cons row t ih =>
    simp only [List.map_cons, List.sum_cons]
    have hrow : row.countP p = row.countP (fun x => p x && q x) +
        row.countP (fun x => p x && !q x) := by
      induction row with
      | nil => rfl
      | cons a s ihr =>
        simp only [List.countP_cons]
        cases hpa : p a <;> cases hqa : q a <;> simp [hpa, hqa] <;> omega
    omega

theorem countGrid_congr {p q : CellState → Bool} {cs cs' : Cells} {rows cols : Nat}
    (h : Shape cs rows cols) (h' : Shape cs' rows cols)
    (hp : ∀ r < rows, ∀ c < cols, p (getCell cs r c) = q (getCell cs' r c)) :
    countGrid p cs = countGrid q cs' := by
  rw [countGrid_eq_range p h, countGrid_eq_range q h']
  apply congrArg List.sum
  apply List.map_congr_left
  intro r hr
  apply congrArg List.length
  apply List.filter_congr
  intro c hc
  exact hp r (List.mem_range.mp hr) c (List.mem_range.mp hc)

theorem cells_ext {cs cs' : Cells} {rows cols : Nat} (h : Shape cs rows cols)
    (h' : Shape cs' rows cols)
    (hp : ∀ r < rows, ∀ c < cols, getCell cs r c = getCell cs' r c) : cs = cs' := by
  apply List.ext_getElem?
  intro r
  by_cases hr : r < rows
  · rw [getRow_eq_of_lt (by rw [h.1]; omega : r < cs.length),
      getRow_eq_of_lt (by rw [h'.1]; omega : r < cs'.length)]
    apply congrArg some
    apply List.ext_getElem?
    intro c
    by_cases hc : c < cols
    · rw [getCell_eq_of_lt (by rw [h.2 r hr]; omega),
        getCell_eq_of_lt (by rw [h'.2 r hr]; omega), hp r hr c hc]
    · rw [List.getElem?_eq_none (by rw [h.2 r hr]; omega),
        List.getElem?_eq_none (by rw [h'.2 r hr]; omega)]
  · rw [List.getElem?_eq_none (by rw [h.1]; omega),
      List.getElem?_eq_none (by rw [h'.1]; omega)]

/-! ### Neighbor list lemmas -/

theorem mem_rangeIncl {x lo hi : Nat} (h : x ∈ rangeIncl lo hi) : lo ≤ x ∧ x ≤ hi := by
  unfold rangeIncl at h
  rw [List.mem_map] at h
  obtain ⟨k, hk, rfl⟩ := h
  rw [List.mem_range] at hk
  omega

theorem mem_neighborList_lt {rows cols r c : Nat} (hrows : 1 ≤ rows) (hcols : 1 ≤ cols)
    {q : Nat × Nat} (hq : q ∈ neighborList rows cols r c) : q.1 < rows ∧ q.2 < cols := by
  unfold neighborList at hq
  rw [List.mem_flatMap] at hq
  obtain ⟨i, hi, hmem⟩ := hq
  rw [List.mem_map] at hmem
  obtain ⟨j, hj, rfl⟩ := hmem
  rw [List.mem_filter] at hj
  have h1 := mem_rangeIncl hi
  have h2 := mem_rangeIncl hj.1
  exact ⟨by omega, by omega⟩

/-! ### Fold helpers -/

theorem foldl_preserve {α β : Type} {P : β → Prop} (step : β → α → β) :
    ∀ (ns : List α) (acc : β), (∀ a ∈ ns, ∀ x, P x → P (step x a)) → P acc →
      P (ns.foldl step acc) := by
  intro ns
  induction ns with
  | nil => intro acc _ h; exact h
  | cons a t ih =>
    intro acc hstep h
    rw [List.foldl_cons]
    exact ih _ (fun x hx y hy => hstep x (List.mem_cons_of_mem _ hx) y hy)
      (hstep a (List.mem_cons_self a t) acc h)

theorem foldl_fixed {α β : Type} (step : β → α → β) (b : β) :
    ∀ ns : List α, (∀ a ∈ ns, step b a = b) → ns.foldl step b = b := by
  intro ns
  induction ns with
  | nil => intro; rfl
  | cons a t ih =>
    intro h
    rw [List.foldl_cons, h a (List.mem_cons_self a t)]
    exact ih fun x hx => h x (List.mem_cons_of_mem _ hx)

/-! ### Flood-fill preservation lemmas -/

theorem shape_revealAdjacentF {rows cols : Nat} :
    ∀ (fuel : Nat) (cs : Cells) (r c : Nat), Shape cs rows cols →
      Shape (revealAdjacentF rows cols fuel cs r c) rows cols := by
  intro fuel
  induction fuel with
  | zero => intro cs r c h; exact h
  | succ n ih =>
    intro cs r c h
    rw [revealAdjacentF_succ]
    refine foldl_preserve (P := fun x => Shape x rows cols) _ _ cs (fun q _ x hx => ?_) h
    unfold revealStep
    split
    · split
      · exact ih _ _ _ (shape_setCell hx _ _ _)
      · exact shape_setCell hx _ _ _
    · exact hx

theorem countHidden_revealAdjacentF_le {rows cols : Nat} :
    ∀ (fuel : Nat) (cs : Cells) (r c : Nat),
      countHidden (revealAdjacentF rows cols fuel cs r c) ≤ countHidden cs := by
  intro fuel
  induction fuel with
  | zero => intro cs r c; exact Nat.le_refl _
  | succ n ih =>
    intro cs r c
    rw [revealAdjacentF_succ]
    refine foldl_preserve (P := fun x => countHidden x ≤ countHidden cs) _ _ cs
      (fun q _ x hx => ?_) (Nat.le_refl _)
    unfold revealStep
    split
    · split
      · exact Nat.le_trans (Nat.le_trans (ih _ _ _) (countHidden_setRevealed_le x q.1 q.2)) hx
      · exact Nat.le_trans (countHidden_setRevealed_le x q.1 q.2) hx
    · exact hx

theorem countRevealed_revealAdjacentF_ge {rows cols : Nat} :
    ∀ (fuel : Nat) (cs : Cells) (r c : Nat),
      countRevealed cs ≤ countRevealed (revealAdjacentF rows cols fuel cs r c) := by
  intro fuel
  induction fuel with
  | zero => intro cs r c; exact Nat.le_refl _
  | succ n ih =>
    intro cs r c
    rw [revealAdjacentF_succ]
    refine foldl_preserve (P := fun x => countRevealed cs ≤ countRevealed x) _ _ cs
      (fun q _ x hx => ?_) (Nat.le_refl _)
    unfold revealStep
    split
    · split
      · exact Nat.le_trans hx
          (Nat.le_trans (countRevealed_setRevealed_ge x q.1 q.2) (ih _ _ _))
      · exact Nat.le_trans hx (countRevealed_setRevealed_ge x q.1 q.2)
    · exact hx

theorem countMines_revealAdjacentF {rows cols : Nat} :
    ∀ (fuel : Nat) (cs : Cells) (r c : Nat),
      countMines (revealAdjacentF rows cols fuel cs r c) = countMines cs := by
  intro fuel
  induction fuel with
  | zero => intro cs r c; rfl
  | succ n ih =>
    intro cs r c
    rw [revealAdjacentF_succ]
    refine foldl_preserve (P := fun x => countMines x = countMines cs) _ _ cs
      (fun q _ x hx => ?_) rfl
    unfold revealStep
    split
    · split
      · rw [ih, countMines_setRevealed, hx]
      · rw [countMines_setRevealed, hx]
    · exact hx

theorem revealAdjacentF_of_allRevealed {rows cols : Nat} (hrows : 1 ≤ rows)
    (hcols : 1 ≤ cols) :
    ∀ (fuel : Nat) (cs : Cells) (r c : Nat), Shape cs rows cols → countHidden cs = 0 →
      revealAdjacentF rows cols fuel cs r c = cs := by
  intro fuel
  cases fuel with
  | zero => intro cs r c _ _; rfl
  | succ n =>
    intro cs r c hs h0
    rw [revealAdjacentF_succ]
    apply foldl_fixed
    intro q hq
    have hlt := mem_neighborList_lt hrows hcols hq
    have hrev : (getCell cs q.1 q.2).revealed = true := by
      have := (countGrid_eq_zero_iff _ hs).mp h0 q.1 hlt.1 q.2 hlt.2
      simpa using this
    unfold revealStep
    rw [if_neg (by simp [hrev])]

/-! ### Stabilization: fuel `countHidden` (hence `rows * cols`) suffices -/

theorem revealAdjacentF_stab {rows cols : Nat} (hrows : 1 ≤ rows) (hcols : 1 ≤ cols) :
    ∀ (n : Nat) (cs : Cells) (r c fuelA fuelB : Nat), Shape cs rows cols →
      countHidden cs ≤ n → countHidden cs ≤ fuelA → countHidden cs ≤ fuelB →
      revealAdjacentF rows cols fuelA cs r c = revealAdjacentF rows cols fuelB cs r c := by
  intro n
  induction n with
  | zero =>
    intro cs r c fa fb hs h0 _ _
    have hz : countHidden cs = 0 := by omega
    rw [revealAdjacentF_of_allRevealed hrows hcols fa cs r c hs hz,
      revealAdjacentF_of_allRevealed hrows hcols fb cs r c hs hz]
  | succ n ih =>
    intro cs r c fa fb hs hn ha hb
    by_cases hle : countHidden cs ≤ n
    · exact ih cs r c fa fb hs hle ha hb
    · have hcnt : countHidden cs = n + 1 := by omega
      obtain ⟨a, rfl⟩ : ∃ a, fa = a + 1 := ⟨fa - 1, by omega⟩
      obtain ⟨b, rfl⟩ : ∃ b, fb = b + 1 := ⟨fb - 1, by omega⟩
      rw [revealAdjacentF_succ, revealAdjacentF_succ]
      have key : ∀ (ns : List (Nat × Nat)), (∀ q ∈ ns, q.1 < rows ∧ q.2 < cols) →
          ∀ acc, Shape acc rows cols → countHidden acc ≤ n + 1 →
          ns.foldl (revealStep rows cols a) acc = ns.foldl (revealStep rows cols b) acc := by
        intro ns
        induction ns with
        | nil => intro _ acc _ _; rfl
        | cons q qs ihq =>
          intro hns acc hsh hcnt'
          have hq := hns q (List.mem_cons_self q qs)
          have hnsTail : ∀ x ∈ qs, x.1 < rows ∧ x.2 < cols :=
            fun x hx => hns x (List.mem_cons_of_mem _ hx)
          rw [List.foldl_cons, List.foldl_cons]
          by_cases hcell : ¬(getCell acc q.1 q.2).revealed ∧ ¬(getCell acc q.1 q.2).isFlagged
          · have hdrop : countHidden (setRevealed acc q.1 q.2) + 1 = countHidden acc :=
              countHidden_setRevealed_add_one (by rw [hsh.1]; omega)
                (by rw [hsh.2 q.1 hq.1]; omega) (by simpa using hcell.1)
            have hshape' := shape_setCell hsh q.1 q.2
              (fun cell => { cell with revealed := true })
            by_cases hzero : (getCell (setRevealed acc q.1 q.2) q.1 q.2).adjacentMines = 0
            · have heq : revealAdjacentF rows cols a (setRevealed acc q.1 q.2) q.1 q.2 =
                  revealAdjacentF rows cols b (setRevealed acc q.1 q.2) q.1 q.2 :=
                ih _ _ _ a b hshape' (by omega) (by omega) (by omega)
              have hstepa : revealStep rows cols a acc q =
                  revealAdjacentF rows cols a (setRevealed acc q.1 q.2) q.1 q.2 := by
                unfold revealStep
                rw [if_pos hcell, if_pos hzero]
              have hstepb : revealStep rows cols b acc q =
                  revealAdjacentF rows cols b (setRevealed acc q.1 q.2) q.1 q.2 := by
                unfold revealStep
                rw [if_pos hcell, if_pos hzero]
              rw [hstepa, hstepb, heq]
              exact ihq hnsTail _ (shape_revealAdjacentF b _ _ _ hshape')
                (Nat.le_trans (countHidden_revealAdjacentF_le b _ _ _) (by omega))
            · have hstepa : revealStep rows cols a acc q = setRevealed acc q.1 q.2 := by
                unfold revealStep
                rw [if_pos hcell, if_neg hzero]
              have hstepb : revealStep rows cols b acc q = setRevealed acc q.1 q.2 := by
                unfold revealStep
                rw [if_pos hcell, if_neg hzero]
              rw [hstepa, hstepb]
              exact ihq hnsTail _ hshape' (by omega)
          · have hstepa : revealStep rows cols a acc q = acc := by
              unfold revealStep
              rw [if_neg hcell]
            have hstepb : revealStep rows cols b acc q = acc := by
              unfold revealStep
              rw [if_neg hcell]
            rw [hstepa, hstepb]
            exact ihq hnsTail acc hsh hcnt'
      exact key _ (fun q hq => mem_neighborList_lt hrows hcols hq) cs hs (by omega)

/-! ### Engine-level preservation lemmas -/

theorem revealCellFuel_fields (now fuel : Nat) (b : GameBoard) (p : Position) :
    (revealCellFuel now fuel b p).rows = b.rows ∧
    (revealCellFuel now fuel b p).cols = b.cols ∧
    (revealCellFuel now fuel b p).mines = b.mines ∧
    (revealCellFuel now fuel b p).minesRemaining = b.minesRemaining ∧
    (revealCellFuel now fuel b p).startTime = b.startTime := by
  simp only [revealCellFuel]
  split
  · exact ⟨rfl, rfl, rfl, rfl, rfl⟩
  · split
    · exact ⟨rfl, rfl, rfl, rfl, rfl⟩
    · exact ⟨rfl, rfl, rfl, rfl, rfl⟩

theorem revealCell_fields (now : Nat) (b : GameBoard) (p : Position) :
    (revealCell now b p).rows = b.rows ∧
    (revealCell now b p).cols = b.cols ∧
    (revealCell now b p).mines = b.mines ∧
    (revealCell now b p).minesRemaining = b.minesRemaining ∧
    (revealCell now b p).startTime = b.startTime :=
  revealCellFuel_fields now (b.rows * b.cols) b p

theorem shape_setRevealed {cs : Cells} {rows cols : Nat} (h : Shape cs rows cols)
    (r c : Nat) : Shape (setRevealed cs r c) rows cols :=
  shape_setCell h r c _

theorem shape_revealCellFuel {b : GameBoard} (hwf : Wf b) (now fuel : Nat) (p : Position) :
    Shape (revealCellFuel now fuel b p).cells b.rows b.cols := by
  simp only [revealCellFuel]
  split
  · exact hwf
  · split
    · show Shape (setRevealed b.cells p.row p.col) b.rows b.cols
      exact shape_setRevealed hwf _ _
    · split
      · show Shape (revealAdjacentF b.rows b.cols fuel
          (setRevealed b.cells p.row p.col) p.row p.col) b.rows b.cols
        exact shape_revealAdjacentF fuel _ _ _ (shape_setRevealed hwf _ _)
      · show Shape (setRevealed b.cells p.row p.col) b.rows b.cols
        exact shape_setRevealed hwf _ _

theorem shape_revealCell {b : GameBoard} (hwf : Wf b) (now : Nat) (p : Position) :
    Shape (revealCell now b p).cells b.rows b.cols :=
  shape_revealCellFuel hwf now (b.rows * b.cols) p

theorem wf_revealCell {b : GameBoard} (hwf : Wf b) (now : Nat) (p : Position) :
    Wf (revealCell now b p) := by
  unfold Wf
  rw [(revealCell_fields now b p).1, (revealCell_fields now b p).2.1]
  exact shape_revealCell hwf now p

theorem countRevealed_revealCellFuel_ge (now fuel : Nat) (b : GameBoard) (p : Position) :
    countRevealed b.cells ≤ countRevealed (revealCellFuel now fuel b p).cells := by
  simp only [revealCellFuel]
  split
  · exact Nat.le_refl _
  · split
    · exact countRevealed_setRevealed_ge _ _ _
    · split
      · exact Nat.le_trans (countRevealed_setRevealed_ge _ _ _)
          (countRevealed_revealAdjacentF_ge _ _ _ _)
      · exact countRevealed_setRevealed_ge _ _ _

theorem countMines_revealCellFuel (now fuel : Nat) (b : GameBoard) (p : Position) :
    countMines (revealCellFuel now fuel b p).cells = countMines b.cells := by
  simp only [revealCellFuel]
  split
  · rfl
  · split
    · exact countMines_setRevealed _ _ _
    · split
      · rw [countMines_revealAdjacentF, countMines_setRevealed]
      · exact countMines_setRevealed _ _ _

/-- Claim C8: for every well-formed board and in-range position the
flood-fill of `revealCell` stabilises within fuel `rows * cols` (so the
recursion terminates, every larger fuel gives the same board), the
revealed-cell count afterwards is bounded by `rows * cols`, and reveals
only ever accumulate. -/
theorem claim_c8_termination (now : Nat) (b : GameBoard) (p : Position)
    (hwf : Wf b) (hr : p.row < b.rows) (hc : p.col < b.cols) :
    (∀ fuel, b.rows * b.cols ≤ fuel →
      revealCellFuel now fuel b p = revealCell now b p) ∧
    countRevealed (revealCell now b p).cells ≤ b.rows * b.cols ∧
    countRevealed b.cells ≤ countRevealed (revealCell now b p).cells := by
  have hrows : 1 ≤ b.rows := by omega
  have hcols : 1 ≤ b.cols := by omega
  refine ⟨?_, ?_, countRevealed_revealCellFuel_ge now _ b p⟩
  · intro fuel hfuel
    have hshape' : Shape (setRevealed b.cells p.row p.col) b.rows b.cols :=
      shape_setCell hwf _ _ _
    have hcount : countHidden (setRevealed b.cells p.row p.col) ≤ b.rows * b.cols := by
      have := countGrid_le_totalCells (fun c => !c.revealed) (setRevealed b.cells p.row p.col)
      rw [totalCells_of_shape hshape'] at this
      exact this
    have hcas : revealAdjacentF b.rows b.cols fuel (setRevealed b.cells p.row p.col)
        p.row p.col =
        revealAdjacentF b.rows b.cols (b.rows * b.cols) (setRevealed b.cells p.row p.col)
        p.row p.col :=
      revealAdjacentF_stab hrows hcols (countHidden (setRevealed b.cells p.row p.col))
        _ _ _ fuel (b.rows * b.cols) hshape' (Nat.le_refl _) (by omega) hcount
    show revealCellFuel now fuel b p = revealCellFuel now (b.rows * b.cols) b p
    simp only [revealCellFuel]
    rw [hcas]
  · have hsh := shape_revealCell hwf now p
    have := countGrid_le_totalCells (fun c => c.revealed) (revealCell now b p).cells
    rw [totalCells_of_shape hsh] at this
    exact this

/-! ### Claim C5: revealing a hidden, unflagged mine -/

/-- Claim C5: revealing an in-range mine cell that is neither revealed nor
flagged marks exactly that cell revealed, sets `status = LOST` and the end
time, and returns at once (the win check is skipped, so the status is LOST
unconditionally and no other cell changes). -/
theorem claim_c5_mine_reveal (now : Nat) (b : GameBoard) (p : Position) (hwf : Wf b)
    (hr : p.row < b.rows) (hc : p.col < b.cols)
    (hmine : (getCell b.cells p.row p.col).isMine = true)
    (hunrev : (getCell b.cells p.row p.col).revealed = false)
    (hunflag : (getCell b.cells p.row p.col).isFlagged = false) :
    revealCell now b p = { b with
        cells := setRevealed b.cells p.row p.col,
        status := GameStatus.LOST, endTime := some now } ∧
    (getCell (revealCell now b p).cells p.row p.col).revealed = true ∧
    ∀ i j, ¬(i = p.row ∧ j = p.col) →
      getCell (revealCell now b p).cells i j = getCell b.cells i j := by
  have hb1 : p.row < b.cells.length := by rw [hwf.1]; omega
  have hb2 : p.col < (getRow b.cells p.row).length := by rw [hwf.2 p.row hr]; omega
  have hminenew : (getCell (setRevealed b.cells p.row p.col) p.row p.col).isMine = true := by
    unfold setRevealed
    rw [getCell_setCell_same _ hb1 hb2]
    exact hmine
  have hmain : revealCell now b p = { b with
      cells := setRevealed b.cells p.row p.col,
      status := GameStatus.LOST, endTime := some now } := by
    unfold revealCell
    simp only [revealCellFuel]
    rw [if_neg (by simp [hunrev, hunflag]), if_pos hminenew]
  refine ⟨hmain, ?_, ?_⟩
  · rw [hmain]
    show (getCell (setRevealed b.cells p.row p.col) p.row p.col).revealed = true
    unfold setRevealed
    rw [getCell_setCell_same _ hb1 hb2]
  · intro i j hne
    rw [hmain]
    show getCell (setRevealed b.cells p.row p.col) i j = getCell b.cells i j
    unfold setRevealed
    exact getCell_setCell_of_ne _ hne

/-- Witness for C5 on a concrete board: revealing the corner mine of
`cornerMineBoard` loses and reveals only that cell. -/
theorem claim_c5_mine_reveal_witness :
    Wf cornerMineBoard ∧
      revealCell 7 cornerMineBoard ⟨0, 0⟩ =
        { cornerMineBoard with
          cells := setRevealed cornerMineBoard.cells 0 0,
          status := GameStatus.LOST, endTime := some 7 } :=
  ⟨by decide, (claim_c5_mine_reveal 7 cornerMineBoard ⟨0, 0⟩ (by decide) (by decide)
    (by decide) (by decide) (by decide) (by decide)).1⟩

/-! ### Claim C10: toggleFlag ignores the game status -/

/-- Claim C10: `toggleFlag` has no game-status guard: on any in-range
unrevealed cell — whatever the board's status — it flips `isFlagged`,
moving `minesRemaining` down by one when flagging and up by one when
unflagging and changing nothing else; in particular some LOST board is
changed by it. -/
theorem claim_c10_toggleFlag :
    (∀ (b : GameBoard) (p : Position), Wf b → p.row < b.rows → p.col < b.cols →
      (getCell b.cells p.row p.col).revealed = false →
      toggleFlag b p = { b with
        cells := setCell b.cells p.row p.col (fun c => { c with isFlagged := !c.isFlagged }),
        minesRemaining := if (getCell b.cells p.row p.col).isFlagged then
          b.minesRemaining + 1 else b.minesRemaining - 1 }) ∧
    (∃ (b : GameBoard) (p : Position), b.status = GameStatus.LOST ∧ toggleFlag b p ≠ b) := by
  constructor
  · intro b p hwf hr hc hunrev
    have hb1 : p.row < b.cells.length := by rw [hwf.1]; omega
    have hb2 : p.col < (getRow b.cells p.row).length := by rw [hwf.2 p.row hr]; omega
    simp only [toggleFlag]
    rw [if_neg (by simp [hunrev])]
    rw [getCell_setCell_same _ hb1 hb2]
    cases hflag : (getCell b.cells p.row p.col).isFlagged <;> simp [hflag]
  · exact ⟨lostBlankBoard, ⟨0, 0⟩, rfl, by decide⟩

/-- Witness for C10 on a concrete board: flagging the hidden corner mine of
`cornerMineBoard` decrements `minesRemaining`. -/
theorem claim_c10_toggleFlag_witness :
    Wf cornerMineBoard ∧
      toggleFlag cornerMineBoard ⟨0, 0⟩ = { cornerMineBoard with
        cells := setCell cornerMineBoard.cells 0 0 (fun c => { c with isFlagged := !c.isFlagged }),
        minesRemaining := cornerMineBoard.minesRemaining - 1 } :=
  ⟨by decide, claim_c10_toggleFlag.1 cornerMineBoard ⟨0, 0⟩ (by decide) (by decide)
    (by decide) (by decide)⟩

/-! ### Claim C2: status rank monotonicity -/

theorem statusRank_le_two (s : GameStatus) : statusRank s ≤ 2 := by
  cases s <;> simp [statusRank]

theorem statusRank_le_ite_won (c : Prop) [Decidable c] (s : GameStatus) :
    statusRank s ≤ statusRank (if c then GameStatus.WON else s) := by
  split
  · exact statusRank_le_two s
  · exact Nat.le_refl _

theorem statusRank_revealCellFuel (now fuel : Nat) (b : GameBoard) (p : Position) :
    statusRank b.status ≤ statusRank (revealCellFuel now fuel b p).status := by
  simp only [revealCellFuel]
  split
  · exact Nat.le_refl _
  · split
    · exact statusRank_le_two _
    · exact statusRank_le_ite_won _ _

theorem statusRank_revealCell (now : Nat) (b : GameBoard) (p : Position) :
    statusRank b.status ≤ statusRank (revealCell now b p).status :=
  statusRank_revealCellFuel now (b.rows * b.cols) b p

theorem toggleFlag_status (b : GameBoard) (p : Position) :
    (toggleFlag b p).status = b.status := by
  unfold toggleFlag
  split
  · rfl
  · rfl

theorem revealAllMines_status (b : GameBoard) :
    (revealAllMines b).status = b.status := rfl

theorem statusRank_revealSweep (now : Nat) :
    ∀ (ps : List Position) (b : GameBoard),
      statusRank b.status ≤ statusRank (revealSweep now b ps).status := by
  intro ps
  induction ps with
  | nil => exact fun b => Nat.le_refl _
  | cons p rest ih =>
    intro b
    simp only [revealSweep]
    split
    · exact statusRank_revealCell now b p
    · exact Nat.le_trans (statusRank_revealCell now b p) (ih _)

theorem statusRank_chordCell (now : Nat) (b : GameBoard) (p : Position) :
    statusRank b.status ≤ statusRank (chordCell now b p).status := by
  simp only [chordCell]
  split
  · exact Nat.le_refl _
  · split
    · exact statusRank_revealSweep now _ b
    · exact Nat.le_refl _

/-- Claim C2 (amended): all five engine transitions are monotone in the
lifecycle rank `READY(0) → PLAYING(1) → WON/LOST(2)` — none ever returns
to `READY`, or from a terminal status to `PLAYING`; `toggleFlag` and
`revealAllMines` never change the status and `startGame` only moves
`READY → PLAYING`.  (Terminal absorption, the stronger frozen claim,
fails: see the counterexample.) -/
theorem claim_c2_rank (now : Nat) (b : GameBoard) (p : Position)
    (hr : p.row < b.rows) (hc : p.col < b.cols) :
    statusRank b.status ≤ statusRank (revealCell now b p).status ∧
    statusRank b.status ≤ statusRank (chordCell now b p).status ∧
    (toggleFlag b p).status = b.status ∧
    (revealAllMines b).status = b.status ∧
    statusRank b.status ≤ statusRank (startGame now b).status ∧
    (b.status ≠ GameStatus.READY → (startGame now b).status = b.status) := by
  refine ⟨statusRank_revealCell now b p, statusRank_chordCell now b p,
    toggleFlag_status b p, revealAllMines_status b, ?_, ?_⟩
  · unfold startGame
    split
    · rename_i hs
      rw [hs]
      exact Nat.zero_le _
    · exact Nat.le_refl _
  · intro hne
    unfold startGame
    rw [if_neg hne]

/-- Counterexample to claim C2 as frozen: on `wonEdgeBoard` (a WON board
whose mine is still hidden and unflagged) `revealCell` exits the terminal
status WON and returns LOST. -/
theorem claim_c2_cex :
    wonEdgeBoard.status = GameStatus.WON ∧
      (revealCell 0 wonEdgeBoard ⟨0, 2⟩).status = GameStatus.LOST := by
  constructor
  · rfl
  · decide

/-- Witness for the amended C2 on a concrete board. -/
theorem claim_c2_rank_witness :
    statusRank mineRowBoard.status ≤
      statusRank (revealCell 3 mineRowBoard ⟨0, 0⟩).status :=
  (claim_c2_rank 3 mineRowBoard ⟨0, 0⟩ (by decide) (by decide)).1

/-! ### Claim C6: chording -/

theorem chordScan_eq (cells : Cells) :
    ∀ (ns : List (Nat × Nat)) (acc : Nat × List Position),
      ns.foldl (fun acc q =>
        if (getCell cells q.1 q.2).isFlagged then (acc.1 + 1, acc.2)
        else if ¬(getCell cells q.1 q.2).revealed then (acc.1, acc.2 ++ [⟨q.1, q.2⟩])
        else acc) acc =
      (acc.1 + ns.countP (fun q => (getCell cells q.1 q.2).isFlagged),
       acc.2 ++ (ns.filter fun q =>
         !(getCell cells q.1 q.2).isFlagged && !(getCell cells q.1 q.2).revealed).map
           fun q => (⟨q.1, q.2⟩ : Position)) := by
  intro ns
  induction ns with
  | nil => intro acc; simp
  | cons q qs ih =>
    intro acc
    rw [List.foldl_cons]
    by_cases hflag : (getCell cells q.1 q.2).isFlagged = true
    · rw [if_pos hflag, ih]
      simp [Prod.ext_iff, List.countP_cons, List.filter_cons, hflag]
      omega
    · rw [if_neg (by simp [hflag])]
      by_cases hrev : (getCell cells q.1 q.2).revealed = true
      · rw [if_neg (by simp [hrev]), ih]
        simp [Prod.ext_iff, List.countP_cons, List.filter_cons, hflag, hrev]
      · rw [if_pos (by simpa using hrev), ih]
        simp [Prod.ext_iff, List.countP_cons, List.filter_cons, hflag, hrev,
          List.append_assoc]

/-- Claim C6: `chordCell` is a no-op when the target cell is unrevealed or
has no adjacent mines, and otherwise reveals exactly the unflagged,
unrevealed neighbors — by repeated `revealCell` application with early
stop on LOST (`revealSweep`) — precisely when the flagged-neighbor count
equals the cell's `adjacentMines`, being a no-op on any mismatch. -/
theorem claim_c6_chord (now : Nat) (b : GameBoard) (p : Position) :
    ((¬(getCell b.cells p.row p.col).revealed = true ∨
        (getCell b.cells p.row p.col).adjacentMines = 0) → chordCell now b p = b) ∧
    ((getCell b.cells p.row p.col).revealed = true →
      0 < (getCell b.cells p.row p.col).adjacentMines →
      (((neighborList b.rows b.cols p.row p.col).countP
          (fun q => (getCell b.cells q.1 q.2).isFlagged) ≠
          (getCell b.cells p.row p.col).adjacentMines → chordCell now b p = b) ∧
       ((neighborList b.rows b.cols p.row p.col).countP
          (fun q => (getCell b.cells q.1 q.2).isFlagged) =
          (getCell b.cells p.row p.col).adjacentMines →
        chordCell now b p = revealSweep now b
          (((neighborList b.rows b.cols p.row p.col).filter fun q =>
            !(getCell b.cells q.1 q.2).isFlagged &&
              !(getCell b.cells q.1 q.2).revealed).map
            fun q => (⟨q.1, q.2⟩ : Position))))) := by
  have hscan : chordScan b.cells (neighborList b.rows b.cols p.row p.col) =
      ((neighborList b.rows b.cols p.row p.col).countP
        (fun q => (getCell b.cells q.1 q.2).isFlagged),
       ((neighborList b.rows b.cols p.row p.col).filter fun q =>
         !(getCell b.cells q.1 q.2).isFlagged && !(getCell b.cells q.1 q.2).revealed).map
         fun q => (⟨q.1, q.2⟩ : Position)) := by
    unfold chordScan
    rw [chordScan_eq]
    simp
  constructor
  · intro h
    simp only [chordCell]
    rw [if_pos h]
  · intro hrev hadj
    have hguard : ¬(¬(getCell b.cells p.row p.col).revealed = true ∨
        (getCell b.cells p.row p.col).adjacentMines = 0) := by
      rintro (h | h)
      · exact h hrev
      · omega
    constructor
    · intro hne
      simp only [chordCell]
      rw [if_neg hguard, hscan]
      rw [if_neg (by simpa using hne)]
    · intro heq
      simp only [chordCell]
      rw [if_neg hguard, hscan]
      rw [if_pos (by simpa using heq)]

/-- Witness for C6 on a concrete board: chording the revealed `(1,1)` cell
of `chordReadyBoard` (whose one flagged neighbor matches its count of 1)
sweeps its remaining hidden neighbors. -/
theorem claim_c6_chord_witness :
    (neighborList chordReadyBoard.rows chordReadyBoard.cols 1 1).countP
        (fun q => (getCell chordReadyBoard.cells q.1 q.2).isFlagged) =
      (getCell chordReadyBoard.cells 1 1).adjacentMines ∧
    chordCell 5 chordReadyBoard ⟨1, 1⟩ = revealSweep 5 chordReadyBoard
      (((neighborList chordReadyBoard.rows chordReadyBoard.cols 1 1).filter fun q =>
        !(getCell chordReadyBoard.cells q.1 q.2).isFlagged &&
          !(getCell chordReadyBoard.cells q.1 q.2).revealed).map
        fun q => (⟨q.1, q.2⟩ : Position)) :=
  ⟨by decide, ((claim_c6_chord 5 chordReadyBoard ⟨1, 1⟩).2 (by decide) (by decide)).2
    (by decide)⟩

/-! ### Board construction lemmas -/

theorem getCell_gridMap (f : Nat → Nat → CellState) (rows cols : Nat) {r c : Nat}
    (hr : r < rows) (hc : c < cols) :
    getCell ((List.range rows).map fun i => (List.range cols).map fun j => f i j) r c
      = f r c := by
  unfold getCell getRow
  simp [List.getElem?_map, List.getElem?_range, hr, hc]

theorem shape_gridMap (f : Nat → Nat → CellState) (rows cols : Nat) :
    Shape ((List.range rows).map fun i => (List.range cols).map fun j => f i j)
      rows cols := by
  constructor
  · simp
  · intro r hr
    unfold getRow
    simp [List.getElem?_map, List.getElem?_range, hr]

theorem shape_blankGrid (rows cols : Nat) : Shape (blankGrid rows cols) rows cols := by
  constructor
  · simp [blankGrid]
  · intro r hr
    unfold getRow blankGrid
    rw [List.getElem?_eq_getElem (by simpa using hr)]
    simp

theorem getCell_blankGrid {rows cols r c : Nat} (hr : r < rows) (hc : c < cols) :
    getCell (blankGrid rows cols) r c = blankCell := by
  unfold getCell getRow blankGrid
  simp [List.getElem?_replicate, hr, hc]

theorem countMines_setMine_add_one {cs : Cells} {r c : Nat} (hr : r < cs.length)
    (hc : c < (getRow cs r).length) (hnm : (getCell cs r c).isMine = false) :
    countMines (setMine cs r c) = countMines cs + 1 := by
  have h0 := countGrid_setCell (fun x => x.isMine)
    (fun cell => { cell with isMine := true }) hr hc
  show countMines (setCell cs r c _) = countMines cs + 1
  unfold countMines
  simp [hnm] at h0
  omega

theorem shape_setMine {cs : Cells} {rows cols : Nat} (h : Shape cs rows cols)
    (r c : Nat) : Shape (setMine cs r c) rows cols :=
  shape_setCell h r c _

theorem placeMines_cons (rows cols : Nat) (cs : Cells) (p : Position)
    (ps : List Position) :
    placeMines rows cols cs (p :: ps) =
      placeMines rows cols
        (if p.row < rows ∧ p.col < cols then setMine cs p.row p.col else cs) ps := rfl

theorem getCell_placeMines {rows cols : Nat} :
    ∀ (ps : List Position) (cs : Cells), Shape cs rows cols →
      ∀ r c, r < rows → c < cols →
        getCell (placeMines rows cols cs ps) r c =
          { getCell cs r c with isMine :=
              ((getCell cs r c).isMine || decide ((⟨r, c⟩ : Position) ∈ ps)) } := by
  intro ps
  induction ps with
  | nil =>
    intro cs _ r c _ _
    show getCell cs r c = _
    cases hcell : getCell cs r c
    simp
  | cons p ps ih =>
    intro cs hs r c hr hc
    rw [placeMines_cons]
    by_cases hp : p.row < rows ∧ p.col < cols
    · rw [if_pos hp, ih (setMine cs p.row p.col) (shape_setMine hs _ _) r c hr hc]
      unfold setMine
      rw [getCell_setCell]
      by_cases hpc : r = p.row ∧ c = p.col
      · obtain ⟨he1, he2⟩ := hpc
        subst he1
        subst he2
        rw [if_pos ⟨rfl, rfl, by rw [hs.1]; omega, by rw [hs.2 p.row hp.1]; omega⟩]
        have hmem : (⟨p.row, p.col⟩ : Position) ∈ p :: ps := by
          have hpeq : p = ⟨p.row, p.col⟩ := by
            cases p
            rfl
          rw [← hpeq]
          exact List.mem_cons_self _ _
        cases hcell : getCell cs p.row p.col
        simp [hmem]
      · rw [if_neg fun hh => hpc ⟨hh.1, hh.2.1⟩]
        have hne : (⟨r, c⟩ : Position) ≠ p := by
          intro he
          exact hpc ⟨by rw [← he], by rw [← he]⟩
        cases hcell : getCell cs r c
        simp [List.mem_cons, hne]
    · rw [if_neg hp, ih cs hs r c hr hc]
      have hne : (⟨r, c⟩ : Position) ≠ p := by
        intro he
        exact hp (by rw [← he]; exact ⟨hr, hc⟩)
      cases hcell : getCell cs r c
      simp [List.mem_cons, hne]

theorem shape_placeMines {rows cols : Nat} :
    ∀ (ps : List Position) (cs : Cells), Shape cs rows cols →
      Shape (placeMines rows cols cs ps) rows cols := by
  intro ps
  induction ps with
  | nil => intro cs hs; exact hs
  | cons p ps ih =>
    intro cs hs
    rw [placeMines_cons]
    by_cases hp : p.row < rows ∧ p.col < cols
    · rw [if_pos hp]
      exact ih _ (shape_setMine hs _ _)
    · rw [if_neg hp]
      exact ih _ hs

theorem getCell_computeAdjacency {rows cols : Nat} {cs : Cells} {r c : Nat}
    (hr : r < rows) (hc : c < cols) :
    getCell (computeAdjacency rows cols cs) r c =
      (if (getCell cs r c).isMine then getCell cs r c
       else { getCell cs r c with
          adjacentMines := neighborMineCount rows cols cs r c }) := by
  show getCell ((List.range rows).map fun i => (List.range cols).map fun j =>
    (let cell := getCell cs i j;
     if cell.isMine then cell
     else { cell with adjacentMines := neighborMineCount rows cols cs i j })) r c = _
  rw [getCell_gridMap (fun i j =>
    (let cell := getCell cs i j;
     if cell.isMine then cell
     else { cell with adjacentMines := neighborMineCount rows cols cs i j }))
    rows cols hr hc]

theorem shape_computeAdjacency (rows cols : Nat) (cs : Cells) :
    Shape (computeAdjacency rows cols cs) rows cols :=
  shape_gridMap _ rows cols

theorem isMine_computeAdjacency {rows cols : Nat} {cs : Cells} {r c : Nat}
    (hr : r < rows) (hc : c < cols) :
    (getCell (computeAdjacency rows cols cs) r c).isMine = (getCell cs r c).isMine := by
  rw [getCell_computeAdjacency hr hc]
  cases hm : (getCell cs r c).isMine <;> simp [hm]

theorem countMines_computeAdjacency {rows cols : Nat} {cs : Cells}
    (hs : Shape cs rows cols) :
    countMines (computeAdjacency rows cols cs) = countMines cs :=
  countGrid_congr (shape_computeAdjacency rows cols cs) hs
    fun r hr c hc => isMine_computeAdjacency hr hc

theorem neighborMineCount_computeAdjacency {rows cols : Nat} {cs : Cells} (r c : Nat)
    (hrows : 1 ≤ rows) (hcols : 1 ≤ cols) :
    neighborMineCount rows cols (computeAdjacency rows cols cs) r c =
      neighborMineCount rows cols cs r c := by
  unfold neighborMineCount
  apply List.countP_congr
  intro q hq
  have hlt := mem_neighborList_lt hrows hcols hq
  rw [isMine_computeAdjacency hlt.1 hlt.2]

theorem placeMinesLoop_spec {rows cols mines : Nat} (sample : Nat → Nat × Nat)
    (hsample : ∀ k, (sample k).1 < rows ∧ (sample k).2 < cols) :
    ∀ (fuel k placed : Nat) (cs out : Cells), Shape cs rows cols →
      countMines cs = placed → placed ≤ mines →
      placeMinesLoop mines sample fuel k placed cs = some out →
      countMines out = mines ∧ Shape out rows cols := by
  intro fuel
  induction fuel with
  | zero =>
    intro k placed cs out hs hcount hle hrun
    simp only [placeMinesLoop] at hrun
    split at hrun
    · rename_i hm
      rw [Option.some.injEq] at hrun
      subst hrun
      exact ⟨by omega, hs⟩
    · exact absurd hrun (by simp)
  | succ n ih =>
    intro k placed cs out hs hcount hle hrun
    simp only [placeMinesLoop] at hrun
    split at hrun
    · rename_i hm
      rw [Option.some.injEq] at hrun
      subst hrun
      exact ⟨by omega, hs⟩
    · rename_i hm
      split at hrun
      · exact ih (k + 1) placed cs out hs hcount hle hrun
      · rename_i hmine
        have hq := hsample k
        refine ih (k + 1) (placed + 1) _ out (shape_setMine hs _ _) ?_ (by omega) hrun
        rw [countMines_setMine_add_one (by rw [hs.1]; omega)
          (by rw [hs.2 _ hq.1]; omega) (by simpa using hmine), hcount]

/-! ### Remaining preservation lemmas -/

theorem countMines_blankGrid (rows cols : Nat) : countMines (blankGrid rows cols) = 0 :=
  (countGrid_eq_zero_iff _ (shape_blankGrid rows cols)).mpr
    fun r hr c hc => by rw [getCell_blankGrid hr hc]; rfl

theorem getCell_revealAllMines {b : GameBoard} {r c : Nat} (hr : r < b.rows)
    (hc : c < b.cols) :
    getCell (revealAllMines b).cells r c =
      (if (getCell b.cells r c).isMine then { getCell b.cells r c with revealed := true }
       else getCell b.cells r c) := by
  show getCell ((List.range b.rows).map fun i => (List.range b.cols).map fun j =>
    (let cell := getCell b.cells i j;
     if cell.isMine then { cell with revealed := true } else cell)) r c = _
  rw [getCell_gridMap (fun i j => (let cell := getCell b.cells i j;
    if cell.isMine then { cell with revealed := true } else cell)) b.rows b.cols hr hc]

theorem shape_revealAllMines (b : GameBoard) :
    Shape (revealAllMines b).cells b.rows b.cols :=
  shape_gridMap _ _ _

theorem countMines_revealAllMines {b : GameBoard} (hwf : Wf b) :
    countMines (revealAllMines b).cells = countMines b.cells :=
  countGrid_congr (shape_revealAllMines b) hwf fun r hr c hc => by
    rw [getCell_revealAllMines hr hc]
    cases hm : (getCell b.cells r c).isMine <;> simp [hm]

theorem countMines_toggleFlag (b : GameBoard) (p : Position) :
    countMines (toggleFlag b p).cells = countMines b.cells := by
  simp only [toggleFlag]
  split
  · rfl
  · show countMines
      (setCell b.cells p.row p.col fun c => { c with isFlagged := !c.isFlagged }) =
      countMines b.cells
    exact countGrid_setCell_invariant _ _ fun x => rfl

theorem toggleFlag_mines (b : GameBoard) (p : Position) :
    (toggleFlag b p).mines = b.mines := by
  simp only [toggleFlag]
  split
  · rfl
  · rfl

theorem countMines_revealCell (now : Nat) (b : GameBoard) (p : Position) :
    countMines (revealCell now b p).cells = countMines b.cells :=
  countMines_revealCellFuel now (b.rows * b.cols) b p

theorem countMines_revealSweep (now : Nat) :
    ∀ (ps : List Position) (b : GameBoard),
      countMines (revealSweep now b ps).cells = countMines b.cells ∧
      (revealSweep now b ps).mines = b.mines := by
  intro ps
  induction ps with
  | nil => intro b; exact ⟨rfl, rfl⟩
  | cons p rest ih =>
    intro b
    simp only [revealSweep]
    split
    · exact ⟨countMines_revealCell now b p, (revealCell_fields now b p).2.2.1⟩
    · refine ⟨?_, ?_⟩
      · rw [(ih (revealCell now b p)).1, countMines_revealCell]
      · rw [(ih (revealCell now b p)).2, (revealCell_fields now b p).2.2.1]

theorem countMines_chordCell (now : Nat) (b : GameBoard) (p : Position) :
    countMines (chordCell now b p).cells = countMines b.cells ∧
    (chordCell now b p).mines = b.mines := by
  simp only [chordCell]
  split
  · exact ⟨rfl, rfl⟩
  · split
    · exact countMines_revealSweep now _ b
    · exact ⟨rfl, rfl⟩

theorem startGame_sameCells (now : Nat) (b : GameBoard) :
    (startGame now b).cells = b.cells ∧ (startGame now b).rows = b.rows ∧
    (startGame now b).cols = b.cols ∧ (startGame now b).mines = b.mines ∧
    (startGame now b).minesRemaining = b.minesRemaining ∧
    (startGame now b).endTime = b.endTime := by
  unfold startGame
  split
  · exact ⟨rfl, rfl, rfl, rfl, rfl, rfl⟩
  · exact ⟨rfl, rfl, rfl, rfl, rfl, rfl⟩

/-! ### Claim C7: mine-cell bookkeeping -/

/-- Claim C7 (amended): the mine cells of `createBoardWithMines` are exactly
the in-bounds listed positions (so their count equals the `mines` field
only when the caller passes `mines`-many distinct in-bounds positions, and
the frozen claim's unconditional count equality fails); every engine
transition preserves both the mine-cell count and the `mines` field, and
every board `createBoard` returns has exactly `mines` mine cells. -/
theorem claim_c7_mines :
    (∀ (rows cols mines : Nat) (ps : List Position) (r c : Nat), r < rows → c < cols →
      ((getCell (createBoardWithMines rows cols mines ps).cells r c).isMine = true ↔
        (⟨r, c⟩ : Position) ∈ ps)) ∧
    (∀ (rows cols mines : Nat) (ps : List Position),
      (createBoardWithMines rows cols mines ps).mines = mines ∧
      Wf (createBoardWithMines rows cols mines ps)) ∧
    (∀ (now : Nat) (b : GameBoard) (p : Position),
      countMines (revealCell now b p).cells = countMines b.cells ∧
      (revealCell now b p).mines = b.mines) ∧
    (∀ (b : GameBoard) (p : Position),
      countMines (toggleFlag b p).cells = countMines b.cells ∧
      (toggleFlag b p).mines = b.mines) ∧
    (∀ (now : Nat) (b : GameBoard) (p : Position),
      countMines (chordCell now b p).cells = countMines b.cells ∧
      (chordCell now b p).mines = b.mines) ∧
    (∀ (now : Nat) (b : GameBoard),
      countMines (startGame now b).cells = countMines b.cells ∧
      (startGame now b).mines = b.mines) ∧
    (∀ b : GameBoard, Wf b →
      countMines (revealAllMines b).cells = countMines b.cells ∧
      (revealAllMines b).mines = b.mines) ∧
    (∀ (rows cols mines : Nat) (sample : Nat → Nat × Nat) (fuel : Nat) (b : GameBoard),
      (∀ k, (sample k).1 < rows ∧ (sample k).2 < cols) →
      createBoard rows cols mines sample fuel = some b →
      countMines b.cells = b.mines) := by
  refine ⟨?_, ?_, ?_, ?_, ?_, ?_, ?_, ?_⟩
  · intro rows cols mines ps r c hr hc
    show (getCell (computeAdjacency rows cols
      (placeMines rows cols (blankGrid rows cols) ps)) r c).isMine = true ↔ _
    rw [isMine_computeAdjacency hr hc,
      getCell_placeMines ps (blankGrid rows cols) (shape_blankGrid rows cols) r c hr hc,
      getCell_blankGrid hr hc]
    simp [blankCell]
  · intro rows cols mines ps
    exact ⟨rfl, shape_computeAdjacency rows cols _⟩
  · exact fun now b p => ⟨countMines_revealCell now b p, (revealCell_fields now b p).2.2.1⟩
  · exact fun b p => ⟨countMines_toggleFlag b p, toggleFlag_mines b p⟩
  · exact fun now b p => countMines_chordCell now b p
  · exact fun now b => ⟨by rw [(startGame_sameCells now b).1], (startGame_sameCells now b).2.2.2.1⟩
  · exact fun b hwf => ⟨countMines_revealAllMines hwf, rfl⟩
  · intro rows cols mines sample fuel b hsample hres
    unfold createBoard at hres
    rw [Option.map_eq_some'] at hres
    obtain ⟨cs, hloop, rfl⟩ := hres
    have hspec := placeMinesLoop_spec sample hsample fuel 0 0 (blankGrid rows cols) cs
      (shape_blankGrid rows cols) (countMines_blankGrid rows cols) (Nat.zero_le _) hloop
    show countMines (computeAdjacency rows cols cs) = mines
    rw [countMines_computeAdjacency hspec.2, hspec.1]

/-- Counterexample to claim C7 as frozen: `createBoardWithMines 1 1 1 []`
has a `mines` field of 1 but zero mine cells. -/
theorem claim_c7_cex :
    countMines (createBoardWithMines 1 1 1 []).cells = 0 ∧
      (createBoardWithMines 1 1 1 []).mines = 1 := by
  decide

/-- Witness for the amended C7 on concrete boards. -/
theorem claim_c7_mines_witness :
    ((getCell (createBoardWithMines 1 3 2 [⟨0, 0⟩, ⟨0, 2⟩]).cells 0 0).isMine = true ↔
      (⟨0, 0⟩ : Position) ∈ [(⟨0, 0⟩ : Position), ⟨0, 2⟩]) ∧
    countMines (revealAllMines mineRowBoard).cells = countMines mineRowBoard.cells :=
  ⟨claim_c7_mines.1 1 3 2 [⟨0, 0⟩, ⟨0, 2⟩] 0 0 (by decide) (by decide),
    (claim_c7_mines.2.2.2.2.2.2.1 mineRowBoard (by decide)).1⟩

/-! ### Claim C4: createBoard postconditions -/

/-- Claim C4: whenever the rejection-sampling `createBoard` returns a
board, that board has exactly `mines` mine cells, every non-mine cell's
`adjacentMines` equals its Chebyshev-neighbor mine count, and the board
starts `READY` with `minesRemaining = mines` and unset timestamps. -/
theorem claim_c4_createBoard (rows cols mines : Nat) (sample : Nat → Nat × Nat)
    (fuel : Nat) (b : GameBoard) (hrows : 1 ≤ rows) (hcols : 1 ≤ cols)
    (hmines : mines < rows * cols)
    (hsample : ∀ k, (sample k).1 < rows ∧ (sample k).2 < cols)
    (hres : createBoard rows cols mines sample fuel = some b) :
    countMines b.cells = mines ∧
    (∀ r < rows, ∀ c < cols, (getCell b.cells r c).isMine = false →
      (getCell b.cells r c).adjacentMines = neighborMineCount rows cols b.cells r c) ∧
    b.status = GameStatus.READY ∧ b.minesRemaining = (mines : Int) ∧
    b.startTime = none ∧ b.endTime = none ∧ b.rows = rows ∧ b.cols = cols ∧
    b.mines = mines ∧ Wf b := by
  unfold createBoard at hres
  rw [Option.map_eq_some'] at hres
  obtain ⟨cs, hloop, rfl⟩ := hres
  have hspec := placeMinesLoop_spec sample hsample fuel 0 0 (blankGrid rows cols) cs
    (shape_blankGrid rows cols) (countMines_blankGrid rows cols) (Nat.zero_le _) hloop
  refine ⟨?_, ?_, rfl, rfl, rfl, rfl, rfl, rfl, rfl, ?_⟩
  · show countMines (computeAdjacency rows cols cs) = mines
    rw [countMines_computeAdjacency hspec.2, hspec.1]
  · intro r hr c hc hnm
    have hnm' : (getCell cs r c).isMine = false := by
      rw [← @isMine_computeAdjacency rows cols cs r c hr hc]
      exact hnm
    show (getCell (computeAdjacency rows cols cs) r c).adjacentMines = _
    rw [getCell_computeAdjacency hr hc, if_neg (by simp [hnm'])]
    show neighborMineCount rows cols cs r c =
      neighborMineCount rows cols (computeAdjacency rows cols cs) r c
    rw [neighborMineCount_computeAdjacency r c hrows hcols]
  · exact shape_computeAdjacency rows cols cs

/-- Witness for C4: with a sampler that draws `(0,0)`, one unit of fuel
suffices and the result is `sampledBoard` with one mine. -/
theorem claim_c4_createBoard_witness :
    createBoard 2 2 1 (fun _ => (0, 0)) 1 = some sampledBoard ∧
      countMines sampledBoard.cells = 1 :=
  ⟨by decide, (claim_c4_createBoard 2 2 1 (fun _ => (0, 0)) 1 sampledBoard (by decide)
    (by decide) (by decide) (fun _ => ⟨Nat.succ_pos 1, Nat.succ_pos 1⟩) (by decide)).1⟩

/-! ### Branch lemmas for revealCell -/

theorem revealCellFuel_noop {now fuel : Nat} {b : GameBoard} {p : Position}
    (h1 : (getCell b.cells p.row p.col).revealed = true ∨
      (getCell b.cells p.row p.col).isFlagged = true) :
    revealCellFuel now fuel b p = b := by
  simp only [revealCellFuel]
  rw [if_pos h1]

theorem revealCellFuel_mine {now fuel : Nat} {b : GameBoard} {p : Position}
    (h1 : ¬((getCell b.cells p.row p.col).revealed = true ∨
      (getCell b.cells p.row p.col).isFlagged = true))
    (h2 : (getCell (setRevealed b.cells p.row p.col) p.row p.col).isMine = true) :
    revealCellFuel now fuel b p = { b with
      cells := setRevealed b.cells p.row p.col,
      status := GameStatus.LOST, endTime := some now } := by
  simp only [revealCellFuel]
  rw [if_neg h1, if_pos h2]

theorem revealCellFuel_else {now fuel : Nat} {b : GameBoard} {p : Position}
    (h1 : ¬((getCell b.cells p.row p.col).revealed = true ∨
      (getCell b.cells p.row p.col).isFlagged = true))
    (h2 : ¬(getCell (setRevealed b.cells p.row p.col) p.row p.col).isMine = true) :
    revealCellFuel now fuel b p = { b with
      cells := revealCascade fuel b p,
      status := if checkWinCondition (revealCascade fuel b p) b.mines = true
        then GameStatus.WON else b.status,
      endTime := if checkWinCondition (revealCascade fuel b p) b.mines = true
        then some now else b.endTime } := by
  simp only [revealCellFuel, revealCascade]
  rw [if_neg h1, if_neg h2]

/-! ### Claim C3: the win condition -/

/-- Claim C3 (amended): on a well-formed board whose `mines` field matches
its mine-cell count, when `revealCell` performs an actual non-mine reveal
(target in range, hidden, unflagged, not a mine), the input board was not
already WON, and the returned board has no revealed mine, then the
returned status is WON exactly when every non-mine cell of the returned
board is revealed.  (As frozen — for every board and position — the
biconditional fails because the internal count check also counts revealed
mines: see the counterexample.) -/
theorem claim_c3_win_iff (now : Nat) (b : GameBoard) (p : Position) (hwf : Wf b)
    (hr : p.row < b.rows) (hc : p.col < b.cols)
    (hm : countMines b.cells = b.mines) (hnw : b.status ≠ GameStatus.WON)
    (hunrev : (getCell b.cells p.row p.col).revealed = false)
    (hunflag : (getCell b.cells p.row p.col).isFlagged = false)
    (hnotmine : (getCell b.cells p.row p.col).isMine = false)
    (hnomine : revealedMines (revealCell now b p) = []) :
    ((revealCell now b p).status = GameStatus.WON ↔
      allSafeRevealed (revealCell now b p)) := by
  have hb1 : p.row < b.cells.length := by rw [hwf.1]; omega
  have hb2 : p.col < (getRow b.cells p.row).length := by rw [hwf.2 p.row hr]; omega
  have h1 : ¬((getCell b.cells p.row p.col).revealed = true ∨
      (getCell b.cells p.row p.col).isFlagged = true) := by
    simp [hunrev, hunflag]
  have h2 : ¬(getCell (setRevealed b.cells p.row p.col) p.row p.col).isMine = true := by
    unfold setRevealed
    rw [getCell_setCell_same _ hb1 hb2]
    simp [hnotmine]
  have hfields := revealCell_fields now b p
  have hshape : Shape (revealCell now b p).cells b.rows b.cols := shape_revealCell hwf now p
  have hcount : countGrid (fun x => x.isMine) (revealCell now b p).cells = b.mines := by
    have := countMines_revealCell now b p
    unfold countMines at this
    rw [this]
    exact hm
  have hz : countGrid (fun x => x.isMine && x.revealed) (revealCell now b p).cells = 0 := by
    rw [countGrid_eq_zero_iff _ hshape]
    intro r hrr c hcc
    by_contra hne
    have hmem : (⟨r, c⟩ : Position) ∈ revealedMines (revealCell now b p) := by
      unfold revealedMines
      refine List.mem_flatMap.mpr ⟨r, List.mem_range.mpr (by rw [hfields.1]; omega), ?_⟩
      refine List.mem_map.mpr ⟨c, List.mem_filter.mpr
        ⟨List.mem_range.mpr (by rw [hfields.2.1]; omega), ?_⟩, rfl⟩
      simpa using hne
    rw [hnomine] at hmem
    exact absurd hmem (List.not_mem_nil _)
  have hstat : ((revealCell now b p).status = GameStatus.WON ↔
      checkWinCondition (revealCell now b p).cells b.mines = true) := by
    unfold revealCell
    rw [revealCellFuel_else h1 h2]
    by_cases hch : checkWinCondition (revealCascade (b.rows * b.cols) b p) b.mines = true
    · rw [if_pos hch]
      exact iff_of_true rfl hch
    · rw [if_neg hch]
      exact iff_of_false hnw hch
  rw [hstat]
  have hcheck : (checkWinCondition (revealCell now b p).cells b.mines = true ↔
      ((countRevealed (revealCell now b p).cells : Int) =
        (totalCells (revealCell now b p).cells : Int) - (b.mines : Int))) := by
    unfold checkWinCondition
    exact decide_eq_true_iff
  rw [hcheck]
  have e1 := countGrid_split (fun x => x.revealed) (fun x => x.isMine)
    (revealCell now b p).cells
  have e2 : countGrid (fun x => x.revealed && x.isMine) (revealCell now b p).cells = 0 := by
    rw [countGrid_congr (q := fun x => x.isMine && x.revealed) hshape hshape
      fun r _ c _ => Bool.and_comm (getCell (revealCell now b p).cells r c).revealed
        (getCell (revealCell now b p).cells r c).isMine]
    exact hz
  have e3 : totalCells (revealCell now b p).cells =
      countGrid (fun x => x.isMine) (revealCell now b p).cells +
      countGrid (fun x => !x.isMine) (revealCell now b p).cells := by
    rw [totalCells_eq_countGrid]
    have := countGrid_split (fun _ => true) (fun x => x.isMine) (revealCell now b p).cells
    simpa using this
  have e4 := countGrid_split (fun x => !x.isMine) (fun x => x.revealed)
    (revealCell now b p).cells
  have e5 : countGrid (fun x => x.revealed && !x.isMine) (revealCell now b p).cells =
      countGrid (fun x => !x.isMine && x.revealed) (revealCell now b p).cells :=
    countGrid_congr (q := fun x => !x.isMine && x.revealed) hshape hshape
      fun r _ c _ => Bool.and_comm (getCell (revealCell now b p).cells r c).revealed
        (!(getCell (revealCell now b p).cells r c).isMine)
  have e6 : allSafeRevealed (revealCell now b p) ↔
      countGrid (fun x => !x.isMine && !x.revealed) (revealCell now b p).cells = 0 := by
    rw [countGrid_eq_zero_iff _ hshape]
    unfold allSafeRevealed
    rw [hfields.1, hfields.2.1]
    constructor
    · intro hall r hrr c hcc
      have h := hall r hrr c hcc
      cases hm1 : (getCell (revealCell now b p).cells r c).isMine <;>
        cases hm2 : (getCell (revealCell now b p).cells r c).revealed <;> simp_all
    · intro hall r hrr c hcc
      have h := hall r hrr c hcc
      cases hm1 : (getCell (revealCell now b p).cells r c).isMine <;>
        cases hm2 : (getCell (revealCell now b p).cells r c).revealed <;> simp_all
  rw [e6]
  unfold countRevealed
  constructor
  · intro h
    omega
  · intro h
    omega

/-- Counterexample to claim C3 as frozen: on `revealedMineBoard` (its mine
already revealed), revealing the safe middle cell makes the internal count
check succeed — status becomes WON — while the safe cell `(0,2)` is still
hidden, so not every non-mine cell is revealed. -/
theorem claim_c3_cex :
    (revealCell 0 revealedMineBoard ⟨0, 1⟩).status = GameStatus.WON ∧
      (getCell (revealCell 0 revealedMineBoard ⟨0, 1⟩).cells 0 2).isMine = false ∧
      (getCell (revealCell 0 revealedMineBoard ⟨0, 1⟩).cells 0 2).revealed = false := by
  decide

/-- Witness for the amended C3: on `cornerMineBoard`, revealing the safe
cell `(1,1)` does not win (two safe cells stay hidden), matching the
biconditional. -/
theorem claim_c3_win_iff_witness :
    Wf cornerMineBoard ∧
      ((revealCell 2 cornerMineBoard ⟨1, 1⟩).status = GameStatus.WON ↔
        allSafeRevealed (revealCell 2 cornerMineBoard ⟨1, 1⟩)) :=
  ⟨by decide, claim_c3_win_iff 2 cornerMineBoard ⟨1, 1⟩ (by decide) (by decide) (by decide)
    (by decide) (by decide) (by decide) (by decide) (by decide) (by decide)⟩

/-! ### Claim C9: index handling of getGameSnapshotAtIndex -/

/-- Claim C9 (amended): `getGameSnapshotAtIndex` clamps on the upper side —
any index at or past `actions.length` returns exactly the result for index
`actions.length - 1` — but a negative index is not clamped to 0: it takes
the source's early return, yielding the entry's initial board and no
action. -/
theorem claim_c9_clamp (nows : Nat → Nat) (entry : GameHistoryEntry) (i : Int) :
    (((entry.actions.length : Int) ≤ i →
      getGameSnapshotAtIndex nows entry i =
        getGameSnapshotAtIndex nows entry ((entry.actions.length : Int) - 1))) ∧
    (i < 0 → getGameSnapshotAtIndex nows entry i = (entry.gameBoard, none)) := by
  have hcore : ∀ j : Int, ¬ j < 0 → getGameSnapshotAtIndex nows entry j =
      snapAt nows entry
        (if (entry.actions.length : Int) ≤ j then entry.actions.length - 1 else j.toNat) := by
    intro j hj
    simp only [getGameSnapshotAtIndex, snapAt]
    rw [if_neg hj]
  constructor
  · intro hlen
    rw [hcore i (by omega), if_pos hlen]
    by_cases hzero : entry.actions.length = 0
    · rw [show getGameSnapshotAtIndex nows entry ((entry.actions.length : Int) - 1) =
          (entry.gameBoard, none) from by
        simp only [getGameSnapshotAtIndex]
        rw [if_pos (by omega)]]
      simp only [snapAt]
      rw [List.getElem?_eq_none (by omega)]
    · rw [hcore ((entry.actions.length : Int) - 1) (by omega),
        if_neg (by omega : ¬((entry.actions.length : Int) ≤ (entry.actions.length : Int) - 1)),
        show ((entry.actions.length : Int) - 1).toNat = entry.actions.length - 1 from by omega]
  · intro hneg
    simp only [getGameSnapshotAtIndex]
    rw [if_pos hneg]

/-- Counterexample to claim C9 as frozen: on `flagEntry` (one recorded
action) the result at index `-1` is the initial board with no action,
which differs from the result at index `0`. -/
theorem claim_c9_cex :
    1 ≤ flagEntry.actions.length ∧
      getGameSnapshotAtIndex (fun _ => 0) flagEntry (-1) ≠
        getGameSnapshotAtIndex (fun _ => 0) flagEntry 0 := by
  decide

/-- Witness for the amended C9 on `flagEntry`. -/
theorem claim_c9_clamp_witness :
    getGameSnapshotAtIndex (fun _ => 0) flagEntry 5 =
      getGameSnapshotAtIndex (fun _ => 0) flagEntry ((flagEntry.actions.length : Int) - 1) ∧
    getGameSnapshotAtIndex (fun _ => 0) flagEntry (-2) = (flagEntry.gameBoard, none) :=
  ⟨(claim_c9_clamp (fun _ => 0) flagEntry 5).1 (by decide),
   (claim_c9_clamp (fun _ => 0) flagEntry (-2)).2 (by decide)⟩

/-! ### Board equivalence (agreement up to timestamps) -/

theorem boardEquiv_refl (b : GameBoard) : BoardEquiv b b :=
  ⟨rfl, rfl, rfl, rfl, rfl, rfl⟩

theorem boardEquiv_status {b b' : GameBoard} (h : BoardEquiv b b') :
    b.status = b'.status := h.2.2.2.2.2

theorem getGameSnapshotAtIndex_nonneg (nows : Nat → Nat) (entry : GameHistoryEntry)
    {i : Int} (hi : ¬ i < 0) :
    getGameSnapshotAtIndex nows entry i = snapAt nows entry
      (if (entry.actions.length : Int) ≤ i then entry.actions.length - 1
       else i.toNat) := by
  simp only [getGameSnapshotAtIndex, snapAt]
  rw [if_neg hi]

theorem revealCell_equiv {b b' : GameBoard} (n n' : Nat) (p : Position)
    (h : BoardEquiv b b') : BoardEquiv (revealCell n b p) (revealCell n' b' p) := by
  obtain ⟨hc, hrw, hcl, hm, hmr, hst⟩ := h
  unfold revealCell
  by_cases h1 : (getCell b.cells p.row p.col).revealed = true ∨
      (getCell b.cells p.row p.col).isFlagged = true
  · have h1' : (getCell b'.cells p.row p.col).revealed = true ∨
        (getCell b'.cells p.row p.col).isFlagged = true := by rw [← hc]; exact h1
    rw [revealCellFuel_noop h1, revealCellFuel_noop h1']
    exact ⟨hc, hrw, hcl, hm, hmr, hst⟩
  · have h1' : ¬((getCell b'.cells p.row p.col).revealed = true ∨
        (getCell b'.cells p.row p.col).isFlagged = true) := by rw [← hc]; exact h1
    by_cases h2 : (getCell (setRevealed b.cells p.row p.col) p.row p.col).isMine = true
    · have h2' : (getCell (setRevealed b'.cells p.row p.col) p.row p.col).isMine = true := by
        rw [← hc]
        exact h2
      rw [revealCellFuel_mine h1 h2, revealCellFuel_mine h1' h2']
      exact ⟨by rw [hc], hrw, hcl, hm, hmr, rfl⟩
    · have h2' : ¬(getCell (setRevealed b'.cells p.row p.col) p.row p.col).isMine = true := by
        rw [← hc]
        exact h2
      rw [revealCellFuel_else h1 h2, revealCellFuel_else h1' h2']
      have hcas : revealCascade (b.rows * b.cols) b p =
          revealCascade (b'.rows * b'.cols) b' p := by
        unfold revealCascade
        rw [hc, hrw, hcl]
      exact ⟨hcas, hrw, hcl, hm, hmr, by rw [hcas, hm, hst]⟩

theorem toggleFlag_equiv {b b' : GameBoard} (p : Position) (h : BoardEquiv b b') :
    BoardEquiv (toggleFlag b p) (toggleFlag b' p) := by
  obtain ⟨hc, hrw, hcl, hm, hmr, hst⟩ := h
  simp only [toggleFlag]
  rw [hc, hmr]
  split
  · exact ⟨hc, hrw, hcl, hm, hmr, hst⟩
  · exact ⟨rfl, hrw, hcl, hm, rfl, hst⟩

theorem startGame_equiv {b b' : GameBoard} (n n' : Nat) (h : BoardEquiv b b') :
    BoardEquiv (startGame n b) (startGame n' b') := by
  obtain ⟨hc, hrw, hcl, hm, hmr, hst⟩ := h
  unfold startGame
  rw [hst]
  split
  · exact ⟨hc, hrw, hcl, hm, hmr, rfl⟩
  · exact ⟨hc, hrw, hcl, hm, hmr, hst⟩

theorem revealAllMines_equiv {b b' : GameBoard} (h : BoardEquiv b b') :
    BoardEquiv (revealAllMines b) (revealAllMines b') := by
  obtain ⟨hc, hrw, hcl, hm, hmr, hst⟩ := h
  unfold revealAllMines
  exact ⟨by rw [hc, hrw, hcl], hrw, hcl, hm, hmr, hst⟩

theorem revealSweep_equiv (n n' : Nat) :
    ∀ (ps : List Position) {b b' : GameBoard}, BoardEquiv b b' →
      BoardEquiv (revealSweep n b ps) (revealSweep n' b' ps) := by
  intro ps
  induction ps with
  | nil => intro b b' h; exact h
  | cons p rest ih =>
    intro b b' h
    have h1 := revealCell_equiv n n' p h
    simp only [revealSweep]
    by_cases hl : (revealCell n b p).status = GameStatus.LOST
    · rw [if_pos hl, if_pos (by rw [← boardEquiv_status h1]; exact hl)]
      exact h1
    · rw [if_neg hl, if_neg (by rw [← boardEquiv_status h1]; exact hl)]
      exact ih h1

theorem chordCell_equiv {b b' : GameBoard} (n n' : Nat) (p : Position)
    (h : BoardEquiv b b') : BoardEquiv (chordCell n b p) (chordCell n' b' p) := by
  have hkeep := h
  obtain ⟨hc, hrw, hcl, hm, hmr, hst⟩ := h
  simp only [chordCell]
  rw [hc, hrw, hcl]
  split
  · exact hkeep
  · split
    · exact revealSweep_equiv n n' _ hkeep
    · exact hkeep

/-! ### Dimension preservation -/

theorem toggleFlag_dims (b : GameBoard) (p : Position) :
    (toggleFlag b p).rows = b.rows ∧ (toggleFlag b p).cols = b.cols := by
  simp only [toggleFlag]
  split
  · exact ⟨rfl, rfl⟩
  · exact ⟨rfl, rfl⟩

theorem revealSweep_dims (n : Nat) :
    ∀ (ps : List Position) (b : GameBoard),
      (revealSweep n b ps).rows = b.rows ∧ (revealSweep n b ps).cols = b.cols := by
  intro ps
  induction ps with
  | nil => intro b; exact ⟨rfl, rfl⟩
  | cons p rest ih =>
    intro b
    simp only [revealSweep]
    split
    · exact ⟨(revealCell_fields n b p).1, (revealCell_fields n b p).2.1⟩
    · refine ⟨?_, ?_⟩
      · rw [(ih (revealCell n b p)).1, (revealCell_fields n b p).1]
      · rw [(ih (revealCell n b p)).2, (revealCell_fields n b p).2.1]

theorem chordCell_dims (n : Nat) (b : GameBoard) (p : Position) :
    (chordCell n b p).rows = b.rows ∧ (chordCell n b p).cols = b.cols := by
  simp only [chordCell]
  split
  · exact ⟨rfl, rfl⟩
  · split
    · exact revealSweep_dims n _ b
    · exact ⟨rfl, rfl⟩

/-! ### Deterministic re-seeding of a fresh board -/

theorem mem_extractMinePositions {b : GameBoard} {r c : Nat} :
    (⟨r, c⟩ : Position) ∈ extractMinePositions b ↔
      r < b.rows ∧ c < b.cols ∧ (getCell b.cells r c).isMine = true := by
  unfold extractMinePositions
  constructor
  · intro h
    obtain ⟨r', hr', h2⟩ := List.mem_flatMap.mp h
    obtain ⟨c', hc', heq⟩ := List.mem_map.mp h2
    obtain ⟨hc'', hm⟩ := List.mem_filter.mp hc'
    obtain ⟨he1, he2⟩ := Position.mk.injEq .. ▸ heq
    subst he1
    subst he2
    exact ⟨List.mem_range.mp hr', List.mem_range.mp hc'', hm⟩
  · rintro ⟨hr, hc, hm⟩
    exact List.mem_flatMap.mpr ⟨r, List.mem_range.mpr hr,
      List.mem_map.mpr ⟨c, List.mem_filter.mpr ⟨List.mem_range.mpr hc, hm⟩, rfl⟩⟩

theorem getCell_placeMines_extract {b0 : GameBoard} (hF : Fresh b0) {i j : Nat}
    (hi : i < b0.rows) (hj : j < b0.cols) :
    getCell (placeMines b0.rows b0.cols (blankGrid b0.rows b0.cols)
        (extractMinePositions b0)) i j =
      { blankCell with isMine := (getCell b0.cells i j).isMine } := by
  rw [getCell_placeMines _ _ (shape_blankGrid _ _) i j hi hj, getCell_blankGrid hi hj]
  cases hgm : (getCell b0.cells i j).isMine
  · simp [blankCell, mem_extractMinePositions, hgm]
  · simp [blankCell, mem_extractMinePositions, hi, hj, hgm]

/-- Re-seeding with the extracted mine layout reproduces a fresh board
exactly (the determinism the replay-on-RESTART path relies on). -/
theorem createBoardWithMines_extract {b0 : GameBoard} (hF : Fresh b0) :
    createBoardWithMines b0.rows b0.cols b0.mines (extractMinePositions b0) = b0 := by
  obtain ⟨hwf, hrows, hcols, hstat, hst, het, hmr, hcells⟩ := hF
  have hFkeep : Fresh b0 := ⟨hwf, hrows, hcols, hstat, hst, het, hmr, hcells⟩
  have hcellseq : computeAdjacency b0.rows b0.cols (placeMines b0.rows b0.cols
      (blankGrid b0.rows b0.cols) (extractMinePositions b0)) = b0.cells := by
    apply cells_ext (shape_computeAdjacency _ _ _) hwf
    intro r hr c hc
    have hnmc : neighborMineCount b0.rows b0.cols (placeMines b0.rows b0.cols
        (blankGrid b0.rows b0.cols) (extractMinePositions b0)) r c =
        neighborMineCount b0.rows b0.cols b0.cells r c := by
      unfold neighborMineCount
      apply List.countP_congr
      intro q hq
      have hlt := mem_neighborList_lt hrows hcols hq
      rw [getCell_placeMines_extract hFkeep hlt.1 hlt.2]
    obtain ⟨hrev, hfl, hadj⟩ := hcells r hr c hc
    rw [getCell_computeAdjacency hr hc, getCell_placeMines_extract hFkeep hr hc]
    cases hgm : (getCell b0.cells r c).isMine
    · rw [if_neg (by simp [blankCell])]
      rw [hgm] at hadj
      simp only [Bool.false_eq_true, if_false] at hadj
      cases hval : getCell b0.cells r c
      simp only [hval] at hrev hfl hadj hgm hnmc ⊢
      subst hrev
      subst hfl
      subst hgm
      simp [blankCell, hnmc, hadj]
    · rw [if_pos (by simp [blankCell])]
      rw [hgm] at hadj
      simp only [if_pos] at hadj
      cases hval : getCell b0.cells r c
      simp only [hval] at hrev hfl hadj hgm ⊢
      subst hrev
      subst hfl
      subst hgm
      simp [blankCell, hadj]
  show ({
      cells := computeAdjacency b0.rows b0.cols (placeMines b0.rows b0.cols
        (blankGrid b0.rows b0.cols) (extractMinePositions b0)),
      rows := b0.rows,
      cols := b0.cols,
      mines := b0.mines,
      minesRemaining := (b0.mines : Int),
      status := GameStatus.READY,
      startTime := none,
      endTime := none } : GameBoard) = b0
  rw [show b0 = ({
      cells := b0.cells,
      rows := b0.rows,
      cols := b0.cols,
      mines := b0.mines,
      minesRemaining := b0.minesRemaining,
      status := b0.status,
      startTime := b0.startTime,
      endTime := b0.endTime } : GameBoard) from rfl]
  rw [GameBoard.mk.injEq]
  exact ⟨hcellseq, rfl, rfl, rfl, hmr.symm, hstat.symm, hst.symm, het.symm⟩

/-! ### Claim C1: replay fidelity of sealed history entries -/

theorem liveBoards_length (nows : Nat → Nat) (b0 : GameBoard) :
    ∀ (moves : List Move) (k : Nat) (b : GameBoard),
      (liveBoards nows b0 k b moves).length = moves.length := by
  intro moves
  induction moves with
  | nil => intro k b; rfl
  | cons m ms ih =>
    intro k b
    simp only [liveBoards, List.length_cons]
    rw [ih]

theorem replay_step {b0 R b : GameBoard} (hF : Fresh b0) (m : Move) (now now' : Nat)
    (hEq : BoardEquiv R b) (h1 : b.rows = b0.rows) (h2 : b.cols = b0.cols)
    (h3 : b.mines = b0.mines) :
    ((lastIsReveal (some m) = true ∧ (applyMove now b0 b m).status = GameStatus.LOST →
      BoardEquiv
        (replayAct now' (extractMinePositions b0) R
          { type := moveType m
            position := movePos m
            timestamp := 0
            boardState := none })
        (revealAllMines (applyMove now b0 b m))) ∧
     (¬ (lastIsReveal (some m) = true ∧ (applyMove now b0 b m).status = GameStatus.LOST) →
      BoardEquiv
        (replayAct now' (extractMinePositions b0) R
          { type := moveType m
            position := movePos m
            timestamp := 0
            boardState := none })
        (applyMove now b0 b m)) ∧
     (applyMove now b0 b m).rows = b0.rows ∧ (applyMove now b0 b m).cols = b0.cols ∧
     (applyMove now b0 b m).mines = b0.mines) := by
  cases m with
  | reveal p =>
    have heq1 := revealCell_equiv now' now p hEq
    refine ⟨?_, ?_, ?_, ?_, ?_⟩
    · rintro ⟨-, hlost⟩
      show BoardEquiv
        (if (revealCell now' R p).status = GameStatus.LOST
         then revealAllMines (revealCell now' R p) else revealCell now' R p)
        (revealAllMines (revealCell now b p))
      rw [if_pos (by rw [boardEquiv_status heq1]; exact hlost)]
      exact revealAllMines_equiv heq1
    · intro hn
      have hnl : ¬ (revealCell now b p).status = GameStatus.LOST := fun hl => hn ⟨rfl, hl⟩
      show BoardEquiv
        (if (revealCell now' R p).status = GameStatus.LOST
         then revealAllMines (revealCell now' R p) else revealCell now' R p)
        (revealCell now b p)
      rw [if_neg (by rw [boardEquiv_status heq1]; exact hnl)]
      exact heq1
    · show (revealCell now b p).rows = b0.rows
      rw [(revealCell_fields now b p).1]; exact h1
    · show (revealCell now b p).cols = b0.cols
      rw [(revealCell_fields now b p).2.1]; exact h2
    · show (revealCell now b p).mines = b0.mines
      rw [(revealCell_fields now b p).2.2.1]; exact h3
  | flag p =>
    refine ⟨?_, ?_, ?_, ?_, ?_⟩
    · rintro ⟨hfalse, -⟩
      simp [lastIsReveal] at hfalse
    · intro hn
      exact toggleFlag_equiv p hEq
    · show (toggleFlag b p).rows = b0.rows
      rw [(toggleFlag_dims b p).1]; exact h1
    · show (toggleFlag b p).cols = b0.cols
      rw [(toggleFlag_dims b p).2]; exact h2
    · show (toggleFlag b p).mines = b0.mines
      rw [toggleFlag_mines]; exact h3
  | chord p =>
    refine ⟨?_, ?_, ?_, ?_, ?_⟩
    · rintro ⟨hfalse, -⟩
      simp [lastIsReveal] at hfalse
    · intro hn
      exact chordCell_equiv now' now p hEq
    · show (chordCell now b p).rows = b0.rows
      rw [(chordCell_dims now b p).1]; exact h1
    · show (chordCell now b p).cols = b0.cols
      rw [(chordCell_dims now b p).2]; exact h2
    · show (chordCell now b p).mines = b0.mines
      rw [(countMines_chordCell now b p).2]; exact h3
  | start =>
    refine ⟨?_, ?_, ?_, ?_, ?_⟩
    · rintro ⟨hfalse, -⟩
      simp [lastIsReveal] at hfalse
    · intro hn
      exact startGame_equiv now' now hEq
    · show (startGame now b).rows = b0.rows
      rw [(startGame_sameCells now b).2.1]; exact h1
    · show (startGame now b).cols = b0.cols
      rw [(startGame_sameCells now b).2.2.1]; exact h2
    · show (startGame now b).mines = b0.mines
      rw [(startGame_sameCells now b).2.2.2.1]; exact h3
  | restart =>
    have hra : R.rows = b0.rows := by rw [hEq.2.1]; exact h1
    have hca : R.cols = b0.cols := by rw [hEq.2.2.1]; exact h2
    have hma : R.mines = b0.mines := by rw [hEq.2.2.2.1]; exact h3
    refine ⟨?_, ?_, rfl, rfl, rfl⟩
    · rintro ⟨hfalse, -⟩
      simp [lastIsReveal] at hfalse
    · intro hn
      show BoardEquiv
        (createBoardWithMines R.rows R.cols R.mines (extractMinePositions b0)) b0
      rw [hra, hca, hma, createBoardWithMines_extract hF]
      exact boardEquiv_refl b0

theorem replay_align {b0 : GameBoard} (hF : Fresh b0) (nows nows' : Nat → Nat) :
    ∀ (moves : List Move) (k k' : Nat) (R b : GameBoard), moves ≠ [] →
      BoardEquiv R b → b.rows = b0.rows → b.cols = b0.cols → b.mines = b0.mines →
      (∀ x ∈ (liveBoards nows b0 k b moves).dropLast, ¬ Terminal x) →
      ((LostByLastReveal moves ((liveBoards nows b0 k b moves).getLast?.getD b0) →
        BoardEquiv
          (replayActions nows' (extractMinePositions b0) k' R
            ((moves.zip (liveBoards nows b0 k b moves)).map fun mb =>
              ({ type := moveType mb.1
                 position := movePos mb.1
                 timestamp := 0
                 boardState := none } : GameAction)))
          (revealAllMines ((liveBoards nows b0 k b moves).getLast?.getD b0))) ∧
       (¬ LostByLastReveal moves ((liveBoards nows b0 k b moves).getLast?.getD b0) →
        BoardEquiv
          (replayActions nows' (extractMinePositions b0) k' R
            ((moves.zip (liveBoards nows b0 k b moves)).map fun mb =>
              ({ type := moveType mb.1
                 position := movePos mb.1
                 timestamp := 0
                 boardState := none } : GameAction)))
          ((liveBoards nows b0 k b moves).getLast?.getD b0))) := by
  intro moves
  induction moves with
  | nil => intro k k' R b hne; exact absurd rfl hne
  | cons m ms ih =>
    intro k k' R b _ hEq h1 h2 h3 hmid
    have hstep := replay_step hF m (nows k) (nows' k') hEq h1 h2 h3
    simp only [liveBoards, List.zip_cons_cons, List.map_cons, replayActions] at hmid ⊢
    cases ms with
    | nil =>
      exact ⟨fun hlbr => hstep.1 ⟨hlbr.1, hlbr.2⟩,
             fun hn => hstep.2.1 fun hc => hn ⟨hc.1, hc.2⟩⟩
    | cons m2 ms2 =>
      have hunf : liveBoards nows b0 (k + 1) (applyMove (nows k) b0 b m) (m2 :: ms2) =
          applyMove (nows (k + 1)) b0 (applyMove (nows k) b0 b m) m2 ::
            liveBoards nows b0 (k + 1 + 1)
              (applyMove (nows (k + 1)) b0 (applyMove (nows k) b0 b m) m2) ms2 := by
        simp only [liveBoards]
      have hne2 : liveBoards nows b0 (k + 1) (applyMove (nows k) b0 b m) (m2 :: ms2) ≠ [] := by
        rw [hunf]; exact List.cons_ne_nil _ _
      rw [List.dropLast_cons_of_ne_nil hne2] at hmid
      have hb1 : ¬ Terminal (applyMove (nows k) b0 b m) :=
        hmid _ (List.mem_cons_self _ _)
      have hmid2 : ∀ x ∈ (liveBoards nows b0 (k + 1) (applyMove (nows k) b0 b m)
          (m2 :: ms2)).dropLast, ¬ Terminal x :=
        fun x hx => hmid x (List.mem_cons_of_mem _ hx)
      have hnotLost : ¬ (applyMove (nows k) b0 b m).status = GameStatus.LOST :=
        fun hl => hb1 (Or.inr hl)
      have hrest := ih (k + 1) (k' + 1)
        (replayAct (nows' k') (extractMinePositions b0) R
          { type := moveType m
            position := movePos m
            timestamp := 0
            boardState := none })
        (applyMove (nows k) b0 b m) (List.cons_ne_nil m2 ms2)
        (hstep.2.1 fun hc => hnotLost hc.2)
        hstep.2.2.1 hstep.2.2.2.1 hstep.2.2.2.2 hmid2
      have hgl : (applyMove (nows k) b0 b m ::
          liveBoards nows b0 (k + 1) (applyMove (nows k) b0 b m) (m2 :: ms2)).getLast? =
          (liveBoards nows b0 (k + 1) (applyMove (nows k) b0 b m) (m2 :: ms2)).getLast? := by
        rw [hunf, List.getLast?_cons_cons]
      simp only [LostByLastReveal] at hrest ⊢
      rw [hgl, List.getLast?_cons_cons]
      exact hrest

/-- Claim C1 (amended): for a sealed entry of a played game (fresh initial
board, at least one move, no move made after the game ended), querying
`getGameSnapshotAtIndex` at the final index reproduces the recorded final
board on the snapshot path exactly; on the reconstruction path (no stored
snapshots) the replayed board always agrees with the recorded final board
in status, and agrees on every field but the timestamps — hence also on the
revealed-mine set — exactly when the game did not end with a losing REVEAL:
a losing REVEAL makes the replay additionally run `revealAllMines`, so the
reconstructed board then matches `revealAllMines` of the recorded final
board, whose revealed-mine set generally differs (the frozen claim's
unqualified revealed-mine-set equality fails; see the counterexample). -/
theorem claim_c1 (nows nows' : Nat → Nat) (b0 : GameBoard) (moves : List Move)
    (hF : Fresh b0) (hne : moves ≠ [])
    (hmid : ∀ x ∈ (liveBoards nows b0 0 b0 moves).dropLast, ¬ Terminal x)
    (hterm : Terminal ((liveBoards nows b0 0 b0 moves).getLast?.getD b0)) :
    (getGameSnapshotAtIndex nows' (mkEntry true nows b0 moves)
        ((moves.length : Int) - 1)).1 =
      (liveBoards nows b0 0 b0 moves).getLast?.getD b0 ∧
    (getGameSnapshotAtIndex nows' (mkEntry false nows b0 moves)
        ((moves.length : Int) - 1)).1.status =
      ((liveBoards nows b0 0 b0 moves).getLast?.getD b0).status ∧
    (¬ LostByLastReveal moves ((liveBoards nows b0 0 b0 moves).getLast?.getD b0) →
      BoardEquiv
        (getGameSnapshotAtIndex nows' (mkEntry false nows b0 moves)
          ((moves.length : Int) - 1)).1
        ((liveBoards nows b0 0 b0 moves).getLast?.getD b0)) ∧
    (LostByLastReveal moves ((liveBoards nows b0 0 b0 moves).getLast?.getD b0) →
      BoardEquiv
        (getGameSnapshotAtIndex nows' (mkEntry false nows b0 moves)
          ((moves.length : Int) - 1)).1
        (revealAllMines ((liveBoards nows b0 0 b0 moves).getLast?.getD b0))) := by
  have hpos : 0 < moves.length := List.length_pos.mpr hne
  have hlenL : (liveBoards nows b0 0 b0 moves).length = moves.length :=
    liveBoards_length nows b0 moves 0 b0
  have hzlen : (moves.zip (liveBoards nows b0 0 b0 moves)).length = moves.length := by
    rw [List.length_zip, hlenL, min_self]
  have hizlt : moves.length - 1 < (moves.zip (liveBoards nows b0 0 b0 moves)).length := by
    rw [hzlen]; omega
  have hlen : ∀ ws : Bool, (mkEntry ws nows b0 moves).actions.length = moves.length := by
    intro ws
    show (List.map _ (moves.zip (liveBoards nows b0 0 b0 moves))).length = moves.length
    rw [List.length_map]
    exact hzlen
  have hneg : ¬ ((moves.length : Int) - 1 < 0) := by omega
  have hsnap : ∀ ws : Bool,
      getGameSnapshotAtIndex nows' (mkEntry ws nows b0 moves) ((moves.length : Int) - 1) =
        snapAt nows' (mkEntry ws nows b0 moves) (moves.length - 1) := by
    intro ws
    have hidx : (if ((mkEntry ws nows b0 moves).actions.length : Int) ≤
          (moves.length : Int) - 1
        then (mkEntry ws nows b0 moves).actions.length - 1
        else ((moves.length : Int) - 1).toNat) = moves.length - 1 := by
      rw [hlen ws, if_neg (by omega)]
      omega
    rw [getGameSnapshotAtIndex_nonneg nows' _ hneg, hidx]
  have hLlt : moves.length - 1 < (liveBoards nows b0 0 b0 moves).length := by
    rw [hlenL]; omega
  have hLlast : (liveBoards nows b0 0 b0 moves).getLast?.getD b0 =
      (liveBoards nows b0 0 b0 moves).get ⟨moves.length - 1, hLlt⟩ := by
    rw [List.getLast?_eq_getElem?]
    have h1 : (liveBoards nows b0 0 b0 moves).length - 1 = moves.length - 1 := by omega
    rw [h1, List.getElem?_eq_getElem hLlt]
    rfl
  have hmlt : moves.length - 1 < moves.length := by omega
  have hzl : (moves.zip (liveBoards nows b0 0 b0 moves)).get ⟨moves.length - 1, hizlt⟩ =
      (moves.get ⟨moves.length - 1, hmlt⟩,
       (liveBoards nows b0 0 b0 moves).get ⟨moves.length - 1, hLlt⟩) :=
    List.getElem_zip
  have hsnapTrue : (getGameSnapshotAtIndex nows' (mkEntry true nows b0 moves)
      ((moves.length : Int) - 1)).1 =
      (liveBoards nows b0 0 b0 moves).getLast?.getD b0 := by
    rw [hsnap true]
    have hbs : (mkEntry true nows b0 moves).actions[moves.length - 1]? = some
        { type := moveType ((moves.zip
            (liveBoards nows b0 0 b0 moves)).get ⟨moves.length - 1, hizlt⟩).1
          position := movePos ((moves.zip
            (liveBoards nows b0 0 b0 moves)).get ⟨moves.length - 1, hizlt⟩).1
          timestamp := 0
          boardState := some ((moves.zip
            (liveBoards nows b0 0 b0 moves)).get ⟨moves.length - 1, hizlt⟩).2 } := by
      show (List.map _ (moves.zip (liveBoards nows b0 0 b0 moves)))[moves.length - 1]? = _
      rw [List.getElem?_map, List.getElem?_eq_getElem hizlt, Option.map_some']
      rfl
    simp only [snapAt]
    rw [hbs]
    show ((moves.zip (liveBoards nows b0 0 b0 moves)).get ⟨moves.length - 1, hizlt⟩).2 =
      (liveBoards nows b0 0 b0 moves).getLast?.getD b0
    rw [hzl, hLlast]
  have hsnapFalse : (getGameSnapshotAtIndex nows' (mkEntry false nows b0 moves)
      ((moves.length : Int) - 1)).1 =
      replayActions nows' (extractMinePositions b0) 0 b0
        ((moves.zip (liveBoards nows b0 0 b0 moves)).map fun mb =>
          ({ type := moveType mb.1
             position := movePos mb.1
             timestamp := 0
             boardState := none } : GameAction)) := by
    rw [hsnap false]
    have hbs : (mkEntry false nows b0 moves).actions[moves.length - 1]? = some
        { type := moveType ((moves.zip
            (liveBoards nows b0 0 b0 moves)).get ⟨moves.length - 1, hizlt⟩).1
          position := movePos ((moves.zip
            (liveBoards nows b0 0 b0 moves)).get ⟨moves.length - 1, hizlt⟩).1
          timestamp := 0
          boardState := none } := by
      show (List.map _ (moves.zip (liveBoards nows b0 0 b0 moves)))[moves.length - 1]? = _
      rw [List.getElem?_map, List.getElem?_eq_getElem hizlt, Option.map_some']
      rfl
    simp only [snapAt]
    rw [hbs]
    show replayActions nows' (mkEntry false nows b0 moves).minePositions 0
        (mkEntry false nows b0 moves).gameBoard
        ((mkEntry false nows b0 moves).actions.take (moves.length - 1 + 1)) = _
    have htk : moves.length - 1 + 1 = moves.length := by omega
    rw [htk]
    rw [List.take_of_length_le (le_of_eq (hlen false))]
    rfl
  have halign := replay_align hF nows nows' moves 0 0 b0 b0 hne (boardEquiv_refl b0)
    rfl rfl rfl hmid
  refine ⟨hsnapTrue, ?_, ?_, ?_⟩
  · by_cases hl : LostByLastReveal moves ((liveBoards nows b0 0 b0 moves).getLast?.getD b0)
    · rw [hsnapFalse, boardEquiv_status (halign.1 hl), revealAllMines_status]
    · rw [hsnapFalse, boardEquiv_status (halign.2 hl)]
  · intro hnl
    rw [hsnapFalse]
    exact halign.2 hnl
  · intro hl
    rw [hsnapFalse]
    exact halign.1 hl

/-- Counterexample to the frozen C1: a one-move game on `mineRowBoard` lost
by revealing the mine at `(0,0)`. The legacy reconstruction path (no stored
snapshot) ends with `revealAllMines`, so the replayed board's revealed-mine
set also holds the untouched mine at `(0,2)` while the recorded final board
only holds the mine that was hit: statuses agree, revealed-mine sets do
not. -/
theorem claim_c1_cex :
    (getGameSnapshotAtIndex (fun _ => 1)
        (mkEntry false (fun _ => 0) mineRowBoard [Move.reveal ⟨0, 0⟩]) 0).1.status =
      ((liveBoards (fun _ => 0) mineRowBoard 0 mineRowBoard
        [Move.reveal ⟨0, 0⟩]).getLast?.getD mineRowBoard).status ∧
    revealedMines (getGameSnapshotAtIndex (fun _ => 1)
        (mkEntry false (fun _ => 0) mineRowBoard [Move.reveal ⟨0, 0⟩]) 0).1 ≠
      revealedMines ((liveBoards (fun _ => 0) mineRowBoard 0 mineRowBoard
        [Move.reveal ⟨0, 0⟩]).getLast?.getD mineRowBoard) := by
  decide

/-- Witness for C1: a one-move game on `cornerMineBoard` lost by revealing
the corner mine, with all hypotheses discharged on the concrete entry. -/
theorem claim_c1_witness :
    Fresh cornerMineBoard ∧
    ([Move.reveal ⟨0, 0⟩] : List Move) ≠ [] ∧
    (∀ x ∈ (liveBoards (fun _ => 0) cornerMineBoard 0 cornerMineBoard
        [Move.reveal ⟨0, 0⟩]).dropLast, ¬ Terminal x) ∧
    Terminal ((liveBoards (fun _ => 0) cornerMineBoard 0 cornerMineBoard
        [Move.reveal ⟨0, 0⟩]).getLast?.getD cornerMineBoard) ∧
    ((getGameSnapshotAtIndex (fun _ => 5) (mkEntry true (fun _ => 0) cornerMineBoard
        [Move.reveal ⟨0, 0⟩]) ((([Move.reveal ⟨0, 0⟩] : List Move).length : Int) - 1)).1 =
      (liveBoards (fun _ => 0) cornerMineBoard 0 cornerMineBoard
        [Move.reveal ⟨0, 0⟩]).getLast?.getD cornerMineBoard ∧
    (getGameSnapshotAtIndex (fun _ => 5) (mkEntry false (fun _ => 0) cornerMineBoard
        [Move.reveal ⟨0, 0⟩]) ((([Move.reveal ⟨0, 0⟩] : List Move).length : Int) - 1)).1.status =
      ((liveBoards (fun _ => 0) cornerMineBoard 0 cornerMineBoard
        [Move.reveal ⟨0, 0⟩]).getLast?.getD cornerMineBoard).status ∧
    (¬ LostByLastReveal [Move.reveal ⟨0, 0⟩]
        ((liveBoards (fun _ => 0) cornerMineBoard 0 cornerMineBoard
          [Move.reveal ⟨0, 0⟩]).getLast?.getD cornerMineBoard) →
      BoardEquiv
        (getGameSnapshotAtIndex (fun _ => 5) (mkEntry false (fun _ => 0) cornerMineBoard
          [Move.reveal ⟨0, 0⟩]) ((([Move.reveal ⟨0, 0⟩] : List Move).length : Int) - 1)).1
        ((liveBoards (fun _ => 0) cornerMineBoard 0 cornerMineBoard
          [Move.reveal ⟨0, 0⟩]).getLast?.getD cornerMineBoard)) ∧
    (LostByLastReveal [Move.reveal ⟨0, 0⟩]
        ((liveBoards (fun _ => 0) cornerMineBoard 0 cornerMineBoard
          [Move.reveal ⟨0, 0⟩]).getLast?.getD cornerMineBoard) →
      BoardEquiv
        (getGameSnapshotAtIndex (fun _ => 5) (mkEntry false (fun _ => 0) cornerMineBoard
          [Move.reveal ⟨0, 0⟩]) ((([Move.reveal ⟨0, 0⟩] : List Move).length : Int) - 1)).1
        (revealAllMines ((liveBoards (fun _ => 0) cornerMineBoard 0 cornerMineBoard
          [Move.reveal ⟨0, 0⟩]).getLast?.getD cornerMineBoard)))) :=
  ⟨by decide, by decide, by decide, by decide,
    claim_c1 (fun _ => 0) (fun _ => 5) cornerMineBoard [Move.reveal ⟨0, 0⟩]
      (by decide) (by decide) (by decide) (by decide)⟩

/-- Witness for C8: the flood-fill stabilisation, reveal-count bound and
reveal monotonicity instantiated on `mineRowBoard` at the safe cell
`(0,1)`. -/
theorem claim_c8_termination_witness :
    Wf mineRowBoard ∧ (⟨0, 1⟩ : Position).row < mineRowBoard.rows ∧
    (⟨0, 1⟩ : Position).col < mineRowBoard.cols ∧
    ((∀ fuel, mineRowBoard.rows * mineRowBoard.cols ≤ fuel →
        revealCellFuel 0 fuel mineRowBoard ⟨0, 1⟩ = revealCell 0 mineRowBoard ⟨0, 1⟩) ∧
      countRevealed (revealCell 0 mineRowBoard ⟨0, 1⟩).cells ≤
        mineRowBoard.rows * mineRowBoard.cols ∧
      countRevealed mineRowBoard.cells ≤
        countRevealed (revealCell 0 mineRowBoard ⟨0, 1⟩).cells) :=
  ⟨by decide, by decide, by decide,
    claim_c8_termination 0 mineRowBoard ⟨0, 1⟩ (by decide) (by decide) (by decide)⟩

end Minesweeper
